import Mathlib

set_option maxHeartbeats 1000000

/- Shallow embedding of `src/imagemounter/_util.py`: the functions
`clean_unmount` (lines 18-54) and `force_clean` (lines 122-233), over an
explicit model of the operating-system state they read and mutate.

Modelling conventions:
* Strings are Lean `String`s; Python's substring test `a in b` is
  `strContains b a`, implemented over the underlying character lists so that
  the kernel can evaluate it.
* Python's `re.match(pattern, s)` for the caller-supplied `pattern`, and the
  caller-supplied `glob_pattern`, are abstract predicates `String → Bool`
  (the functions under study are parametric in them).
* The filesystem and process state is a `World`: lists of existing regular
  files, directories and symlinks, the set of currently mounted paths, the
  set of mounts that stay mounted even after a successful unmount command
  (a busy mount that never releases within the wait budget), an oracle
  saying which external commands fail, a log of the external commands that
  were actually run, and the `LVM_SUPPRESS_FD_WARNINGS` environment flag.
* A Python-level uncaught exception is the `.error` branch of
  `Except World α`; the payload is the world at the moment of the raise
  (mutations made before the raise persist, as they do in Python).
* `time.sleep(1)` is a no-op on the model state, so `os.path.ismount` is
  stable across the poll loop; a mount that the kernel would eventually
  release is modelled as released by the unmount command itself, and a
  mount that never releases within the budget is in `stuckMounts`.
* `os.path.ismount` returns `false` on a symlink (CPython's `posixpath.
  ismount` explicitly tests `S_ISLNK` first); `os.path.isdir` is modelled
  as membership in the directory list (path kinds are disjoint in the
  model). `glob.glob` enumerates the currently existing entries matching
  the pattern, where `*` does not cross a `/`.
-/

/-! ## String helpers -/

/-- Bool-valued "`n` is a prefix of `h`" on character lists. -/
def isPrefixChars : List Char → List Char → Bool
  | [], _ => true
  | _ :: _, [] => false
  | a :: as, b :: bs => a == b && isPrefixChars as bs

/-- Bool-valued "`needle` occurs inside `hay`" on character lists. -/
def hasInfixChars : List Char → List Char → Bool
  | [], needle => isPrefixChars needle []
  | h :: t, needle => isPrefixChars needle (h :: t) || hasInfixChars t needle

/-- Python's substring test `needle in hay`. -/
def strContains (hay needle : String) : Bool :=
  hasInfixChars hay.toList needle.toList

/-- Python's `s.startswith(p)` / glob prefix test. -/
def strStarts (s p : String) : Bool :=
  isPrefixChars p.toList s.toList

/-- The fixed glob `/tmp/image_mounter_*` of `force_clean` line 223: the
prefix must match and `*` may not cross a path separator. -/
def imGlobMatch (s : String) : Bool :=
  strStarts s "/tmp/image_mounter_"
  && !((s.toList.drop "/tmp/image_mounter_".toList.length).contains '/')

/-! ## Data model: parsed system tables -/

/-- One parsed line of `mount` output (`force_clean` lines 143-147):
`<orig> on <mountpoint> type <fs> (<opts>)`. -/
structure MountEntry where
  mountpoint : String
  orig : String
  fs : String
  opts : String
deriving DecidableEq

/-- The three tables `force_clean` queries: the mount table (a dict keyed by
mountpoint, modelled as a list in insertion order), the loopback table
`device ↦ backing file` (lines 166-174), and the physical-volume /
volume-group pairings emitted by the `pvdisplay` parsing loop
(lines 176-199). -/
structure Snapshot where
  mounts : List MountEntry
  loopbacks : List (String × String)
  vgPairs : List (String × String)

/-- Python dict lookup over the insertion list: a later binding for the same
key overwrites an earlier one. -/
def dictLookup (l : List (String × String)) (k : String) : Option String :=
  l.foldl (fun acc p => if p.1 == k then some p.2 else acc) none

/-! ## The operating-system world -/

/-- The mutable operating-system state visible to the code. -/
structure World where
  files : List String
  dirs : List String
  symlinks : List String
  mountedPaths : List String
  stuckMounts : List String
  cmdFails : List String → Bool
  log : List (List String)
  lvmSuppress : Bool

/-- Python `os.path.exists`. -/
def pathExists (w : World) (p : String) : Bool :=
  decide (p ∈ w.files) || decide (p ∈ w.dirs) || decide (p ∈ w.symlinks)

/-- Python `os.path.islink`. -/
def isLink (w : World) (p : String) : Bool :=
  decide (p ∈ w.symlinks)

/-- Python `os.path.ismount`: false on symlinks (CPython tests `S_ISLNK`
before anything else). -/
def isMount (w : World) (p : String) : Bool :=
  decide (p ∈ w.mountedPaths) && !(decide (p ∈ w.symlinks))

/-- Does `p` have any entry strictly below it (so `os.rmdir p` would fail
with `ENOTEMPTY`)? -/
def hasChild (w : World) (p : String) : Bool :=
  (w.dirs ++ w.files ++ w.symlinks).any (fun q => strStarts q (p ++ "/"))

/-- Python `os.remove` / `os.unlink` (they are the same function): removes a
file or a symlink, raises `OSError` on a missing path or a directory. -/
def osRemove (w : World) (p : String) : Except World World :=
  if p ∈ w.files then .ok { w with files := w.files.erase p }
  else if p ∈ w.symlinks then .ok { w with symlinks := w.symlinks.erase p }
  else .error w

/-- Python `os.rmdir`: removes an existing empty directory; raises
`OSError` on a missing path, a non-empty directory (`ENOTEMPTY`), or a
directory that is a live mountpoint (`EBUSY` — on Linux `rmdir(2)` refuses
to remove a mountpoint even when it is empty). -/
def osRmdir (w : World) (p : String) : Except World World :=
  if decide (p ∈ w.dirs) && !(hasChild w p) && !(decide (p ∈ w.mountedPaths)) then
    .ok { w with dirs := w.dirs.erase p }
  else .error w

/-- The `try: os.rmdir(folder) except Exception: pass` of `force_clean`
lines 218-222 and 227-231. -/
def rmdirCaught (w : World) (p : String) : World :=
  match osRmdir w p with
  | .ok w' => w'
  | .error w' => w'

/-- Effect of a successfully invoked external command on the world: an
unmount command releases its mountpoint unless the mount is stuck; the
other commands touch no modelled state. -/
def applyCmdEffect (w : World) (cmd : List String) : World :=
  match cmd with
  | ["umount", mp] =>
      if mp ∈ w.stuckMounts then w else { w with mountedPaths := w.mountedPaths.erase mp }
  | ["fusermount", "-u", mp] =>
      if mp ∈ w.stuckMounts then w else { w with mountedPaths := w.mountedPaths.erase mp }
  | _ => w

/-- `check_call_` / `check_output_` (lines 108-118): the command is run
(logged), and a nonzero exit status raises `CalledProcessError`. -/
def checkCall (w : World) (cmd : List String) : Except World World :=
  let w' := { w with log := w.log ++ [cmd] }
  if w.cmdFails cmd then .error w' else .ok (applyCmdEffect w' cmd)

/-- The entries `glob.glob` can see, in the model's deterministic order. -/
def worldEntries (w : World) : List String :=
  w.dirs ++ w.files ++ w.symlinks

/-- `glob.glob(pattern)` against the current world. -/
def globEval (w : World) (p : String → Bool) : List String :=
  (worldEntries w).filter p

/-! ## clean_unmount (lines 18-54) -/

/-- Line 19: `cmd.append(mountpoint)` — the caller-supplied command list is
extended in place with the mountpoint before use; this definition is the
value the caller's aliased list holds afterwards. -/
def clean_unmount_cmd (cmd : List String) (mountpoint : String) : List String :=
  cmd ++ [mountpoint]

/-- The poll loop of lines 40-49: up to `tries` one-second polls; as soon as
the mountpoint no longer registers as mounted, remove it (unlink for a
symlink, rmdir otherwise) and stop. -/
def unmountPoll (w : World) (mountpoint : String) : Nat → Except World World
  | 0 => .ok w
  | Nat.succ n =>
    if isMount w mountpoint then unmountPoll w mountpoint n
    else if isLink w mountpoint then osRemove w mountpoint
    else osRmdir w mountpoint

/-- Lines 36-54 of `clean_unmount`: skip removal if `rmdir` was not
requested, else poll-and-remove, then report success iff the path is not a
directory any more. -/
def finishUnmount (w : World) (mountpoint : String) (tries : Nat) (rmdir : Bool) :
    Except World (World × Bool) :=
  if !rmdir then .ok (w, true)
  else
    match unmountPoll w mountpoint tries with
    | .error w' => .error w'
    | .ok w2 => .ok (w2, !(decide (mountpoint ∈ w2.dirs)))

/-- `clean_unmount(cmd, mountpoint, tries, rmdir)` (lines 18-54). An AVFS
marker entry is removed instead of unmounting; a symlink mountpoint skips
the unmount command; otherwise the appended command is invoked and its
failure is caught (`return False`). -/
def clean_unmount (w : World) (cmd : List String) (mountpoint : String)
    (tries : Nat) (rmdir : Bool) : Except World (World × Bool) :=
  let fullCmd := clean_unmount_cmd cmd mountpoint
  if pathExists w (mountpoint ++ "/avfs") then
    match osRemove w (mountpoint ++ "/avfs") with
    | .error w' => .error w'
    | .ok w1 => finishUnmount w1 mountpoint tries rmdir
  else if isLink w mountpoint then
    finishUnmount w mountpoint tries rmdir
  else
    match checkCall w fullCmd with
    | .error w' => .ok (w', false)
    | .ok w1 => finishUnmount w1 mountpoint tries rmdir

/-! ## force_clean (lines 122-233) -/

/-- Stage-1 condition (line 153): `'bind' in opts and re.match(pattern,
mountpoint)`. -/
def bindCond (pat : String → Bool) (e : MountEntry) : Bool :=
  strContains e.opts "bind" && pat e.mountpoint

/-- Stage-2 condition (line 159): `'bind' not in opts and ('/image_mounter_'
in orig or re.match(pattern, mountpoint))`. -/
def mainCond (pat : String → Bool) (e : MountEntry) : Bool :=
  !(strContains e.opts "bind")
  && (strContains e.orig "/image_mounter_" || pat e.mountpoint)

/-- Stage-5 condition (line 206): `'/image_mounter_' in mountpoint`. -/
def fuseCond (e : MountEntry) : Bool :=
  strContains e.mountpoint "/image_mounter_"

/-- Stage-1 plan entries (line 154). -/
def bindMk (mp : String) : List String := ["umount " ++ mp]

/-- Stage-2 plan entries (lines 160-161). -/
def mainMk (mp : String) : List String := ["umount " ++ mp, "rm -Rf " ++ mp]

/-- Stage-5 plan entries (lines 207-208). -/
def fuseMk (mp : String) : List String := ["fusermount -u " ++ mp, "rm -Rf " ++ mp]

/-- One mount-iterating stage of `force_clean`: for each table entry
satisfying `cond`, append the plan entries `mk mountpoint`, and in execute
mode call `clean_unmount baseCmd mountpoint` (with `rmdir` as in the
source); an exception from `clean_unmount` is not caught here. The three
loops at lines 152-156, 158-163 and 205-210 are instances. -/
def mountStage (execute : Bool) (cond : MountEntry → Bool) (mk : String → List String)
    (baseCmd : List String) (rmdirFlag : Bool) :
    List MountEntry → World → List String → Except World (World × List String)
  | [], w, cs => .ok (w, cs)
  | e :: rest, w, cs =>
    if cond e then
      let cs' := cs ++ mk e.mountpoint
      if execute then
        match clean_unmount w baseCmd e.mountpoint 5 rmdirFlag with
        | .error w' => .error w'
        | .ok (w', _) => mountStage execute cond mk baseCmd rmdirFlag rest w' cs'
      else mountStage execute cond mk baseCmd rmdirFlag rest w cs'
    else mountStage execute cond mk baseCmd rmdirFlag rest w cs

/-- Lines 195-196 guarded by the `try ... except Exception: pass` of lines
189-198: run `lvchange -a n vg` then `losetup -d pv`; a failure of either
is swallowed (and skips the rest of the pair's body). -/
def vgRunCaught (w : World) (vg pv : String) : World :=
  match checkCall w ["lvchange", "-a", "n", vg] with
  | .error w' => w'
  | .ok w1 =>
    match checkCall w1 ["losetup", "-d", pv] with
    | .error w2 => w2
    | .ok w2 => w2

/-- Stages 3-4 (lines 176-202): for each emitted physical-volume /
volume-group pairing, look the physical volume up in the loopback table
(a `KeyError` is swallowed by the `except`), and if the backing file
carries the `/image_mounter_` marker, enqueue the deactivate and detach
operations, running them in execute mode with failures swallowed. -/
def vgStage (execute : Bool) (loopbacks : List (String × String)) :
    List (String × String) → World → List String → World × List String
  | [], w, cs => (w, cs)
  | (pv, vg) :: rest, w, cs =>
    match dictLookup loopbacks pv with
    | none => vgStage execute loopbacks rest w cs
    | some bf =>
      if strContains bf "/image_mounter_" then
        let cs' := cs ++ ["lvchange -a n " ++ vg, "losetup -d " ++ pv]
        let w' := if execute then vgRunCaught w vg pv else w
        vgStage execute loopbacks rest w' cs'
      else vgStage execute loopbacks rest w cs

/-- One sweep stage (lines 213-222 with `sel = pattern`, lines 223-231 with
`sel` always true): for each globbed folder passing `sel`, enqueue
`rm -Rf folder` unless already enqueued, and in execute mode attempt
`os.rmdir(folder)` with any failure swallowed. -/
def sweepStage (execute : Bool) (sel : String → Bool) :
    List String → World → List String → World × List String
  | [], w, cs => (w, cs)
  | f :: rest, w, cs =>
    if sel f then
      let cmd := "rm -Rf " ++ f
      let cs' := if cmd ∈ cs then cs else cs ++ [cmd]
      let w' := if execute then rmdirCaught w f else w
      sweepStage execute sel rest w' cs'
    else sweepStage execute sel rest w cs

/-- `force_clean(execute, pattern, glob_pattern)` (lines 122-233) over a
fixed parsed snapshot of the three tables. Sets the
`LVM_SUPPRESS_FD_WARNINGS` environment flag first (line 136), then runs the
stages in source order; each stage's glob is evaluated against the world as
it stands when the stage starts. -/
def force_clean (w : World) (snap : Snapshot) (execute : Bool)
    (pat globPat : String → Bool) : Except World (World × List String) :=
  let w0 : World := { w with lvmSuppress := true }
  match mountStage execute (bindCond pat) bindMk ["umount"] false snap.mounts w0 [] with
  | .error we => .error we
  | .ok (w1, cs1) =>
    match mountStage execute (mainCond pat) mainMk ["umount"] true snap.mounts w1 cs1 with
    | .error we => .error we
    | .ok (w2, cs2) =>
      let r3 := vgStage execute snap.loopbacks snap.vgPairs w2 cs2
      match mountStage execute fuseCond fuseMk ["fusermount", "-u"] true snap.mounts r3.1 r3.2 with
      | .error we => .error we
      | .ok (w4, cs4) =>
        let r5 := sweepStage execute pat (globEval w4 globPat) w4 cs4
        let r6 := sweepStage execute (fun _ => true) (globEval r5.1 imGlobMatch) r5.1 r5.2
        .ok (r6.1, r6.2)

/-! ## Pure plan functions (what the command list works out to) -/

/-- The plan entries a mount-iterating stage contributes. -/
def stageCmds (cond : MountEntry → Bool) (mk : String → List String)
    (mounts : List MountEntry) : List String :=
  (mounts.filter cond).flatMap (fun e => mk e.mountpoint)

/-- The plan entries the volume-group stage contributes. -/
def vgCmds (loopbacks : List (String × String)) : List (String × String) → List String
  | [] => []
  | (pv, vg) :: rest =>
    (match dictLookup loopbacks pv with
     | none => []
     | some bf =>
       if strContains bf "/image_mounter_" then
         ["lvchange -a n " ++ vg, "losetup -d " ++ pv]
       else []) ++ vgCmds loopbacks rest

/-- The command list after a sweep stage over `folders`, starting from
`cs`. -/
def sweepCmds (sel : String → Bool) : List String → List String → List String
  | [], cs => cs
  | f :: rest, cs =>
    if sel f then
      let cmd := "rm -Rf " ++ f
      sweepCmds sel rest (if cmd ∈ cs then cs else cs ++ [cmd])
    else sweepCmds sel rest cs

/-- The command list after stages 1-5, before the sweeps. -/
def stagePlanPre (snap : Snapshot) (pat : String → Bool) : List String :=
  stageCmds (bindCond pat) bindMk snap.mounts
  ++ (stageCmds (mainCond pat) mainMk snap.mounts
  ++ (vgCmds snap.loopbacks snap.vgPairs
  ++ stageCmds fuseCond fuseMk snap.mounts))

/-- The full command list of a dry run (`execute=False`). -/
def planDry (w : World) (snap : Snapshot) (pat globPat : String → Bool) : List String :=
  sweepCmds (fun _ => true) (globEval w imGlobMatch)
    (sweepCmds pat (globEval w globPat) (stagePlanPre snap pat))

/-- The command list of a `force_clean` result, empty when it raised. -/
def planOf (r : Except World (World × List String)) : List String :=
  match r with
  | .ok (_, cs) => cs
  | .error _ => []

/-- The final world of a `force_clean` result (also defined when it raised:
the world at the raise). -/
def worldOf (r : Except World (World × List String)) : World :=
  match r with
  | .ok (w, _) => w
  | .error w => w

/-- Did the run raise an uncaught exception? -/
def raised (r : Except World (World × List String)) : Bool :=
  match r with
  | .ok _ => false
  | .error _ => true

/-! ## String lemmas -/

theorem strData_append (s t : String) : (s ++ t).data = s.data ++ t.data := by
  cases s; cases t; rfl

theorem strAppend_cancel_left {p a b : String} (h : p ++ a = p ++ b) : a = b := by
  have hd : p.data ++ a.data = p.data ++ b.data := by
    rw [← strData_append, ← strData_append, h]
  have hdata : a.data = b.data := List.append_cancel_left hd
  cases a; cases b; exact congrArg String.mk hdata

/-- Two strings with concretely different characters at some index stay
different after appending arbitrary suffixes. -/
theorem strPrefix_ne {s t : String} {i : Nat} (hi : i < s.data.length)
    (hj : i < t.data.length) (h : s.data[i]? ≠ t.data[i]?) :
    ∀ a b : String, s ++ a ≠ t ++ b := by
  intro a b heq
  have hd : s.data ++ a.data = t.data ++ b.data := by
    rw [← strData_append, ← strData_append, heq]
  have h1 : (s.data ++ a.data)[i]? = s.data[i]? := List.getElem?_append_left hi
  have h2 : (t.data ++ b.data)[i]? = t.data[i]? := List.getElem?_append_left hj
  exact h (by rw [← h1, hd, h2])

/-! ## World-evolution frame lemmas -/

/-- The final world of a `clean_unmount` result, raised or not. -/
def cuWorld (r : Except World (World × Bool)) : World :=
  match r with
  | .ok (w, _) => w
  | .error w => w

/-- The final world of a single OS-primitive result, raised or not. -/
def exWorld (r : Except World World) : World :=
  match r with
  | .ok w => w
  | .error w => w

/-- Fields of the world never written by any modelled operation. -/
def frameRest (w w' : World) : Prop :=
  w'.stuckMounts = w.stuckMounts ∧ w'.cmdFails = w.cmdFails

theorem frameRest_refl (w : World) : frameRest w w := ⟨rfl, rfl⟩

theorem frameRest_trans {w1 w2 w3 : World} (h1 : frameRest w1 w2) (h2 : frameRest w2 w3) :
    frameRest w1 w3 := ⟨h2.1.trans h1.1, h2.2.trans h1.2⟩

theorem osRemove_world (w : World) (p : String) :
    exWorld (osRemove w p) = w
    ∨ exWorld (osRemove w p) = { w with files := w.files.erase p }
    ∨ exWorld (osRemove w p) = { w with symlinks := w.symlinks.erase p } := by
  unfold osRemove
  by_cases h1 : p ∈ w.files
  · rw [if_pos h1]; right; left; rfl
  · rw [if_neg h1]
    by_cases h2 : p ∈ w.symlinks
    · rw [if_pos h2]; right; right; rfl
    · rw [if_neg h2]; left; rfl

theorem osRmdir_world (w : World) (p : String) :
    exWorld (osRmdir w p) = w ∨ exWorld (osRmdir w p) = { w with dirs := w.dirs.erase p } := by
  unfold osRmdir
  by_cases h : (decide (p ∈ w.dirs) && !(hasChild w p) && !(decide (p ∈ w.mountedPaths))) = true
  · rw [if_pos h]; right; rfl
  · rw [if_neg h]; left; rfl

theorem rmdirCaught_eq (w : World) (p : String) : rmdirCaught w p = exWorld (osRmdir w p) := by
  unfold rmdirCaught exWorld
  cases osRmdir w p <;> rfl

theorem rmdirCaught_world (w : World) (p : String) :
    rmdirCaught w p = w ∨ rmdirCaught w p = { w with dirs := w.dirs.erase p } := by
  rw [rmdirCaught_eq]; exact osRmdir_world w p

theorem applyCmdEffect_world (w : World) (c : List String) :
    applyCmdEffect w c = w
    ∨ ∃ mp, applyCmdEffect w c = { w with mountedPaths := w.mountedPaths.erase mp } := by
  unfold applyCmdEffect
  split
  · split
    · exact Or.inl rfl
    · exact Or.inr ⟨_, rfl⟩
  · split
    · exact Or.inl rfl
    · exact Or.inr ⟨_, rfl⟩
  · exact Or.inl rfl

theorem checkCall_world (w : World) (c : List String) :
    exWorld (checkCall w c) = { w with log := w.log ++ [c] }
    ∨ ∃ mp, exWorld (checkCall w c) =
        { w with log := w.log ++ [c], mountedPaths := w.mountedPaths.erase mp } := by
  unfold checkCall
  by_cases h : w.cmdFails c = true
  · rw [if_pos h]; left; rfl
  · rw [if_neg h]
    rcases applyCmdEffect_world { w with log := w.log ++ [c] } c with h2 | ⟨mp, h2⟩
    · left; exact h2
    · right; exact ⟨mp, h2⟩

/-! ## Erase-only list evolution -/

/-- `l'` arose from `l` by deleting occurrences of paths in `allowed` only:
it is a sublist, and any path present in `l` but gone from `l'` is among
`allowed`. -/
def erasedOnly (allowed : List String) (l l' : List String) : Prop :=
  l'.Sublist l ∧ ∀ p, p ∈ l → p ∉ l' → p ∈ allowed

theorem erasedOnly_refl (allowed l : List String) : erasedOnly allowed l l :=
  ⟨List.Sublist.refl l, fun _ hp hp' => absurd hp hp'⟩

theorem erasedOnly_erase {allowed : List String} {p : String} (hp : p ∈ allowed)
    (l : List String) : erasedOnly allowed l (l.erase p) := by
  refine ⟨List.erase_sublist p l, fun q hq hq' => ?_⟩
  by_cases hqp : q = p
  · exact hqp ▸ hp
  · exact absurd ((List.mem_erase_of_ne hqp).mpr hq) hq'

theorem erasedOnly_trans {A : List String} {l1 l2 l3 : List String}
    (h1 : erasedOnly A l1 l2) (h2 : erasedOnly A l2 l3) : erasedOnly A l1 l3 := by
  refine ⟨h2.1.trans h1.1, fun p hp hp' => ?_⟩
  by_cases hm : p ∈ l2
  · exact h2.2 p hm hp'
  · exact h1.2 p hp hm

theorem erasedOnly_mono {A B : List String} {l l' : List String}
    (h : erasedOnly A l l') (hAB : ∀ p ∈ A, p ∈ B) : erasedOnly B l l' :=
  ⟨h.1, fun p hp hp' => hAB p (h.2 p hp hp')⟩

/-! ## Touch bounds: which paths an operation may delete, which commands it
may run -/

/-- From `w` to `w'`, only directories in `dset`, files in `fset` and
symlinks in `sset` may have been deleted, only commands in `logAdd` may
have been run, and the untouched fields are untouched. -/
def localTouch (dset fset sset : List String) (logAdd : List (List String))
    (w w' : World) : Prop :=
  erasedOnly dset w.dirs w'.dirs ∧ erasedOnly fset w.files w'.files
  ∧ erasedOnly sset w.symlinks w'.symlinks
  ∧ (∃ L, w'.log = w.log ++ L ∧ L.Sublist logAdd)
  ∧ frameRest w w' ∧ w'.lvmSuppress = w.lvmSuppress

theorem localTouch_id {dset fset sset logAdd} (w : World) :
    localTouch dset fset sset logAdd w w :=
  ⟨erasedOnly_refl _ _, erasedOnly_refl _ _, erasedOnly_refl _ _,
   ⟨[], by simp, List.nil_sublist _⟩, frameRest_refl w, rfl⟩

theorem localTouch_mono {d1 f1 s1 L1 d2 f2 s2 L2} {w w' : World}
    (h : localTouch d1 f1 s1 L1 w w')
    (hd : ∀ p ∈ d1, p ∈ d2) (hf : ∀ p ∈ f1, p ∈ f2) (hs : ∀ p ∈ s1, p ∈ s2)
    (hL : L1.Sublist L2) : localTouch d2 f2 s2 L2 w w' := by
  obtain ⟨h1, h2, h3, ⟨L, hlog, hLs⟩, h5, h6⟩ := h
  exact ⟨erasedOnly_mono h1 hd, erasedOnly_mono h2 hf, erasedOnly_mono h3 hs,
    ⟨L, hlog, hLs.trans hL⟩, h5, h6⟩

theorem localTouch_comp {d1 f1 s1 L1 d2 f2 s2 L2} {w1 w2 w3 : World}
    (h1 : localTouch d1 f1 s1 L1 w1 w2) (h2 : localTouch d2 f2 s2 L2 w2 w3) :
    localTouch (d1 ++ d2) (f1 ++ f2) (s1 ++ s2) (L1 ++ L2) w1 w3 := by
  obtain ⟨a1, a2, a3, ⟨La, hla, hlas⟩, a5, a6⟩ := h1
  obtain ⟨b1, b2, b3, ⟨Lb, hlb, hlbs⟩, b5, b6⟩ := h2
  refine ⟨?_, ?_, ?_, ⟨La ++ Lb, ?_, hlas.append hlbs⟩, frameRest_trans a5 b5, b6.trans a6⟩
  · exact erasedOnly_trans (erasedOnly_mono a1 (fun p hp => List.mem_append.mpr (Or.inl hp)))
      (erasedOnly_mono b1 (fun p hp => List.mem_append.mpr (Or.inr hp)))
  · exact erasedOnly_trans (erasedOnly_mono a2 (fun p hp => List.mem_append.mpr (Or.inl hp)))
      (erasedOnly_mono b2 (fun p hp => List.mem_append.mpr (Or.inr hp)))
  · exact erasedOnly_trans (erasedOnly_mono a3 (fun p hp => List.mem_append.mpr (Or.inl hp)))
      (erasedOnly_mono b3 (fun p hp => List.mem_append.mpr (Or.inr hp)))
  · rw [hlb, hla, List.append_assoc]

theorem cuWorld_error (w : World) : cuWorld (.error w) = w := rfl

theorem cuWorld_ok (w : World) (b : Bool) : cuWorld (.ok (w, b)) = w := rfl

theorem exWorld_error (w : World) : exWorld (.error w) = w := rfl

theorem exWorld_ok (w : World) : exWorld (.ok w) = w := rfl

theorem osRemove_touch (w : World) (p : String) :
    localTouch [] [p] [p] [] w (exWorld (osRemove w p)) := by
  rcases osRemove_world w p with h | h | h <;> rw [h]
  · exact localTouch_id w
  · exact ⟨erasedOnly_refl _ _, erasedOnly_erase (List.mem_singleton.mpr rfl) _,
      erasedOnly_refl _ _, ⟨[], by simp, List.nil_sublist _⟩, ⟨rfl, rfl⟩, rfl⟩
  · exact ⟨erasedOnly_refl _ _, erasedOnly_refl _ _,
      erasedOnly_erase (List.mem_singleton.mpr rfl) _,
      ⟨[], by simp, List.nil_sublist _⟩, ⟨rfl, rfl⟩, rfl⟩

theorem osRmdir_touch (w : World) (p : String) :
    localTouch [p] [] [] [] w (exWorld (osRmdir w p)) := by
  rcases osRmdir_world w p with h | h <;> rw [h]
  · exact localTouch_id w
  · exact ⟨erasedOnly_erase (List.mem_singleton.mpr rfl) _, erasedOnly_refl _ _,
      erasedOnly_refl _ _, ⟨[], by simp, List.nil_sublist _⟩, ⟨rfl, rfl⟩, rfl⟩

theorem rmdirCaught_touch (w : World) (p : String) :
    localTouch [p] [] [] [] w (rmdirCaught w p) := by
  rw [rmdirCaught_eq]; exact osRmdir_touch w p

theorem checkCall_touch (w : World) (c : List String) :
    localTouch [] [] [] [c] w (exWorld (checkCall w c)) := by
  rcases checkCall_world w c with h | ⟨mp, h⟩ <;> rw [h] <;>
    exact ⟨erasedOnly_refl _ _, erasedOnly_refl _ _, erasedOnly_refl _ _,
      ⟨[c], rfl, List.Sublist.refl _⟩, ⟨rfl, rfl⟩, rfl⟩

theorem unmountPoll_touch (w : World) (mp : String) (n : Nat) :
    localTouch [mp] [mp] [mp] [] w (exWorld (unmountPoll w mp n)) := by
  induction n with
  | zero => exact localTouch_id w
  | succ n ih =>
    show localTouch _ _ _ _ w (exWorld
      (if isMount w mp then unmountPoll w mp n
       else if isLink w mp then osRemove w mp else osRmdir w mp))
    by_cases h1 : isMount w mp = true
    · rw [if_pos h1]; exact ih
    · rw [if_neg h1]
      by_cases h2 : isLink w mp = true
      · rw [if_pos h2]
        exact localTouch_mono (osRemove_touch w mp) (by simp) (by simp) (by simp) (by simp)
      · rw [if_neg h2]
        exact localTouch_mono (osRmdir_touch w mp) (by simp) (by simp) (by simp) (by simp)

theorem cuWorld_finishUnmount_true (w : World) (mp : String) (tries : Nat) :
    cuWorld (finishUnmount w mp tries true) = exWorld (unmountPoll w mp tries) := by
  unfold finishUnmount
  cases unmountPoll w mp tries <;> rfl

theorem cuWorld_finishUnmount_false (w : World) (mp : String) (tries : Nat) :
    cuWorld (finishUnmount w mp tries false) = w := rfl

theorem finishUnmount_touch (w : World) (mp : String) (tries : Nat) (rmdir : Bool) :
    localTouch [mp] [mp] [mp] [] w (cuWorld (finishUnmount w mp tries rmdir)) := by
  cases rmdir
  · rw [cuWorld_finishUnmount_false]; exact localTouch_id w
  · rw [cuWorld_finishUnmount_true]; exact unmountPoll_touch w mp tries

theorem clean_unmount_touch (w : World) (cmd : List String) (mp : String)
    (tries : Nat) (rmdir : Bool) :
    localTouch [mp] [mp ++ "/avfs", mp] [mp ++ "/avfs", mp] [clean_unmount_cmd cmd mp]
      w (cuWorld (clean_unmount w cmd mp tries rmdir)) := by
  unfold clean_unmount
  by_cases h1 : pathExists w (mp ++ "/avfs") = true
  · rw [if_pos h1]
    cases hr : osRemove w (mp ++ "/avfs") with
    | error w' =>
      have ht := osRemove_touch w (mp ++ "/avfs")
      rw [hr, exWorld_error] at ht
      exact localTouch_mono ht (by simp) (by simp) (by simp) (by simp)
    | ok w1 =>
      have ht := osRemove_touch w (mp ++ "/avfs")
      rw [hr, exWorld_ok] at ht
      have ht2 := finishUnmount_touch w1 mp tries rmdir
      have hc := localTouch_comp ht ht2
      exact localTouch_mono hc (by simp) (by simp) (by simp) (by simp)
  · rw [if_neg h1]
    by_cases h2 : isLink w mp = true
    · rw [if_pos h2]
      exact localTouch_mono (finishUnmount_touch w mp tries rmdir)
        (by simp) (by simp) (by simp) (by simp)
    · rw [if_neg h2]
      cases hr : checkCall w (clean_unmount_cmd cmd mp) with
      | error w' =>
        have ht := checkCall_touch w (clean_unmount_cmd cmd mp)
        rw [hr, exWorld_error] at ht
        exact localTouch_mono ht (by simp) (by simp) (by simp) (by simp)
      | ok w1 =>
        have ht := checkCall_touch w (clean_unmount_cmd cmd mp)
        rw [hr, exWorld_ok] at ht
        have ht2 := finishUnmount_touch w1 mp tries rmdir
        have hc := localTouch_comp ht ht2
        exact localTouch_mono hc (by simp) (by simp) (by simp) (by simp)

theorem clean_unmount_noRm_touch (w : World) (cmd : List String) (mp : String) (tries : Nat) :
    localTouch [] [mp ++ "/avfs"] [mp ++ "/avfs"] [clean_unmount_cmd cmd mp]
      w (cuWorld (clean_unmount w cmd mp tries false)) := by
  unfold clean_unmount
  by_cases h1 : pathExists w (mp ++ "/avfs") = true
  · rw [if_pos h1]
    cases hr : osRemove w (mp ++ "/avfs") with
    | error w' =>
      have ht := osRemove_touch w (mp ++ "/avfs")
      rw [hr, exWorld_error] at ht
      exact localTouch_mono ht (by simp) (by simp) (by simp) (by simp)
    | ok w1 =>
      have ht := osRemove_touch w (mp ++ "/avfs")
      rw [hr, exWorld_ok] at ht
      rw [cuWorld_finishUnmount_false]
      exact localTouch_mono ht (by simp) (by simp) (by simp) (by simp)
  · rw [if_neg h1]
    by_cases h2 : isLink w mp = true
    · rw [if_pos h2]
      rw [cuWorld_finishUnmount_false]
      exact localTouch_id w
    · rw [if_neg h2]
      cases hr : checkCall w (clean_unmount_cmd cmd mp) with
      | error w' =>
        have ht := checkCall_touch w (clean_unmount_cmd cmd mp)
        rw [hr, exWorld_error] at ht
        exact localTouch_mono ht (by simp) (by simp) (by simp) (by simp)
      | ok w1 =>
        have ht := checkCall_touch w (clean_unmount_cmd cmd mp)
        rw [hr, exWorld_ok] at ht
        rw [cuWorld_finishUnmount_false]
        exact localTouch_mono ht (by simp) (by simp) (by simp) (by simp)

/-! ## Stage-level touch sets and plan characterizations -/

/-- Mountpoints a mount stage may delete as directories. -/
def stageDirs (cond : MountEntry → Bool) (mounts : List MountEntry) : List String :=
  (mounts.filter cond).map MountEntry.mountpoint

/-- Paths a mount stage may delete as files or symlinks: each matched
mountpoint and its `avfs` marker entry. -/
def stageAvfs (cond : MountEntry → Bool) (mounts : List MountEntry) : List String :=
  (mounts.filter cond).flatMap (fun e => [e.mountpoint ++ "/avfs", e.mountpoint])

/-- Paths a `rmdir=False` mount stage may delete: only `avfs` markers. -/
def stageAvfsOnly (cond : MountEntry → Bool) (mounts : List MountEntry) : List String :=
  (mounts.filter cond).map (fun e => e.mountpoint ++ "/avfs")

/-- Commands a mount stage may run. -/
def stageLog (cond : MountEntry → Bool) (baseCmd : List String)
    (mounts : List MountEntry) : List (List String) :=
  (mounts.filter cond).map (fun e => baseCmd ++ [e.mountpoint])

/-- Commands the volume-group stage may run. -/
def vgLog (loopbacks : List (String × String)) : List (String × String) → List (List String)
  | [] => []
  | (pv, vg) :: rest =>
    (match dictLookup loopbacks pv with
     | none => []
     | some bf =>
       if strContains bf "/image_mounter_" then
         [["lvchange", "-a", "n", vg], ["losetup", "-d", pv]]
       else []) ++ vgLog loopbacks rest

theorem stageDirs_cons_pos {cond : MountEntry → Bool} {e : MountEntry}
    {rest : List MountEntry} (hc : cond e = true) :
    stageDirs cond (e :: rest) = e.mountpoint :: stageDirs cond rest := by
  simp [stageDirs, List.filter_cons, hc]

theorem stageDirs_cons_neg {cond : MountEntry → Bool} {e : MountEntry}
    {rest : List MountEntry} (hc : cond e = false) :
    stageDirs cond (e :: rest) = stageDirs cond rest := by
  simp [stageDirs, List.filter_cons, hc]

theorem stageAvfs_cons_pos {cond : MountEntry → Bool} {e : MountEntry}
    {rest : List MountEntry} (hc : cond e = true) :
    stageAvfs cond (e :: rest)
      = (e.mountpoint ++ "/avfs") :: e.mountpoint :: stageAvfs cond rest := by
  simp [stageAvfs, List.filter_cons, hc]

theorem stageAvfs_cons_neg {cond : MountEntry → Bool} {e : MountEntry}
    {rest : List MountEntry} (hc : cond e = false) :
    stageAvfs cond (e :: rest) = stageAvfs cond rest := by
  simp [stageAvfs, List.filter_cons, hc]

theorem stageAvfsOnly_cons_pos {cond : MountEntry → Bool} {e : MountEntry}
    {rest : List MountEntry} (hc : cond e = true) :
    stageAvfsOnly cond (e :: rest) = (e.mountpoint ++ "/avfs") :: stageAvfsOnly cond rest := by
  simp [stageAvfsOnly, List.filter_cons, hc]

theorem stageAvfsOnly_cons_neg {cond : MountEntry → Bool} {e : MountEntry}
    {rest : List MountEntry} (hc : cond e = false) :
    stageAvfsOnly cond (e :: rest) = stageAvfsOnly cond rest := by
  simp [stageAvfsOnly, List.filter_cons, hc]

theorem stageLog_cons_pos {cond : MountEntry → Bool} {baseCmd : List String}
    {e : MountEntry} {rest : List MountEntry} (hc : cond e = true) :
    stageLog cond baseCmd (e :: rest)
      = (baseCmd ++ [e.mountpoint]) :: stageLog cond baseCmd rest := by
  simp [stageLog, List.filter_cons, hc]

theorem stageLog_cons_neg {cond : MountEntry → Bool} {baseCmd : List String}
    {e : MountEntry} {rest : List MountEntry} (hc : cond e = false) :
    stageLog cond baseCmd (e :: rest) = stageLog cond baseCmd rest := by
  simp [stageLog, List.filter_cons, hc]

theorem stageCmds_cons_pos {cond : MountEntry → Bool} {mk : String → List String}
    {e : MountEntry} {rest : List MountEntry} (hc : cond e = true) :
    stageCmds cond mk (e :: rest) = mk e.mountpoint ++ stageCmds cond mk rest := by
  simp [stageCmds, List.filter_cons, hc]

theorem stageCmds_cons_neg {cond : MountEntry → Bool} {mk : String → List String}
    {e : MountEntry} {rest : List MountEntry} (hc : cond e = false) :
    stageCmds cond mk (e :: rest) = stageCmds cond mk rest := by
  simp [stageCmds, List.filter_cons, hc]

theorem sublist_of_listEq {α : Type} {l l' : List α} (h : l = l') : l.Sublist l' :=
  h ▸ List.Sublist.refl l

theorem mountStage_touch (execute : Bool) (cond : MountEntry → Bool)
    (mk : String → List String) (baseCmd : List String) (rmdirFlag : Bool) :
    ∀ (mounts : List MountEntry) (w : World) (cs : List String),
    localTouch (stageDirs cond mounts) (stageAvfs cond mounts) (stageAvfs cond mounts)
      (stageLog cond baseCmd mounts)
      w (worldOf (mountStage execute cond mk baseCmd rmdirFlag mounts w cs)) := by
  intro mounts
  induction mounts with
  | nil => intro w cs; exact localTouch_id w
  | cons e rest ih =>
    intro w cs
    cases hc : cond e with
    | false =>
      rw [stageDirs_cons_neg hc, stageAvfs_cons_neg hc, stageLog_cons_neg hc]
      simp only [mountStage, hc, Bool.false_eq_true, if_false]
      exact ih w cs
    | true =>
      rw [stageDirs_cons_pos hc, stageAvfs_cons_pos hc, stageLog_cons_pos hc]
      simp only [mountStage, hc, if_true]
      cases execute with
      | false =>
        simp only [Bool.false_eq_true, if_false]
        refine localTouch_mono (ih w (cs ++ mk e.mountpoint)) ?_ ?_ ?_ ?_
        · intro p hp; exact List.mem_cons_of_mem _ hp
        · intro p hp; exact List.mem_cons_of_mem _ (List.mem_cons_of_mem _ hp)
        · intro p hp; exact List.mem_cons_of_mem _ (List.mem_cons_of_mem _ hp)
        · exact List.sublist_cons_of_sublist _ (List.Sublist.refl _)
      | true =>
        simp only [if_true]
        cases hr : clean_unmount w baseCmd e.mountpoint 5 rmdirFlag with
        | error w' =>
          have ht := clean_unmount_touch w baseCmd e.mountpoint 5 rmdirFlag
          rw [hr, cuWorld_error] at ht
          refine localTouch_mono ht ?_ ?_ ?_ ?_
          · intro p hp; simp at hp ⊢; tauto
          · intro p hp; simp at hp ⊢; tauto
          · intro p hp; simp at hp ⊢; tauto
          · exact List.Sublist.cons₂ _ (List.nil_sublist _)
        | ok pr =>
          obtain ⟨w1, b⟩ := pr
          have ht := clean_unmount_touch w baseCmd e.mountpoint 5 rmdirFlag
          rw [hr, cuWorld_ok] at ht
          have hcomp := localTouch_comp ht (ih w1 (cs ++ mk e.mountpoint))
          refine localTouch_mono hcomp ?_ ?_ ?_ ?_
          · intro p hp; simp only [List.singleton_append] at hp; exact hp
          · intro p hp; simp only [List.cons_append, List.singleton_append] at hp; exact hp
          · intro p hp; simp only [List.cons_append, List.singleton_append] at hp; exact hp
          · exact sublist_of_listEq (by simp [clean_unmount_cmd])

theorem mountStage_noRm_touch (execute : Bool) (cond : MountEntry → Bool)
    (mk : String → List String) (baseCmd : List String) :
    ∀ (mounts : List MountEntry) (w : World) (cs : List String),
    localTouch [] (stageAvfsOnly cond mounts) (stageAvfsOnly cond mounts)
      (stageLog cond baseCmd mounts)
      w (worldOf (mountStage execute cond mk baseCmd false mounts w cs)) := by
  intro mounts
  induction mounts with
  | nil => intro w cs; exact localTouch_id w
  | cons e rest ih =>
    intro w cs
    cases hc : cond e with
    | false =>
      rw [stageAvfsOnly_cons_neg hc, stageLog_cons_neg hc]
      simp only [mountStage, hc, Bool.false_eq_true, if_false]
      exact ih w cs
    | true =>
      rw [stageAvfsOnly_cons_pos hc, stageLog_cons_pos hc]
      simp only [mountStage, hc, if_true]
      cases execute with
      | false =>
        simp only [Bool.false_eq_true, if_false]
        refine localTouch_mono (ih w (cs ++ mk e.mountpoint)) ?_ ?_ ?_ ?_
        · intro p hp; exact hp
        · intro p hp; exact List.mem_cons_of_mem _ hp
        · intro p hp; exact List.mem_cons_of_mem _ hp
        · exact List.sublist_cons_of_sublist _ (List.Sublist.refl _)
      | true =>
        simp only [if_true]
        cases hr : clean_unmount w baseCmd e.mountpoint 5 false with
        | error w' =>
          have ht := clean_unmount_noRm_touch w baseCmd e.mountpoint 5
          rw [hr, cuWorld_error] at ht
          refine localTouch_mono ht ?_ ?_ ?_ ?_
          · intro p hp; exact absurd hp (List.not_mem_nil p)
          · intro p hp; simp at hp ⊢; tauto
          · intro p hp; simp at hp ⊢; tauto
          · exact List.Sublist.cons₂ _ (List.nil_sublist _)
        | ok pr =>
          obtain ⟨w1, b⟩ := pr
          have ht := clean_unmount_noRm_touch w baseCmd e.mountpoint 5
          rw [hr, cuWorld_ok] at ht
          have hcomp := localTouch_comp ht (ih w1 (cs ++ mk e.mountpoint))
          refine localTouch_mono hcomp ?_ ?_ ?_ ?_
          · intro p hp; simp only [List.nil_append] at hp; exact hp
          · intro p hp; simp only [List.singleton_append] at hp; exact hp
          · intro p hp; simp only [List.singleton_append] at hp; exact hp
          · exact sublist_of_listEq (by simp [clean_unmount_cmd])

theorem vgRunCaught_cases (w : World) (vg pv : String) :
    vgRunCaught w vg pv = exWorld (checkCall w ["lvchange", "-a", "n", vg])
    ∨ ∃ w1, checkCall w ["lvchange", "-a", "n", vg] = .ok w1
        ∧ vgRunCaught w vg pv = exWorld (checkCall w1 ["losetup", "-d", pv]) := by
  unfold vgRunCaught
  cases h1 : checkCall w ["lvchange", "-a", "n", vg] with
  | error w' => left; rfl
  | ok w1 =>
    right
    refine ⟨w1, rfl, ?_⟩
    show (match checkCall w1 ["losetup", "-d", pv] with
          | Except.error w2 => w2
          | Except.ok w2 => w2) = exWorld (checkCall w1 ["losetup", "-d", pv])
    cases checkCall w1 ["losetup", "-d", pv] <;> rfl

theorem vgRunCaught_touch (w : World) (vg pv : String) :
    localTouch [] [] [] [["lvchange", "-a", "n", vg], ["losetup", "-d", pv]]
      w (vgRunCaught w vg pv) := by
  rcases vgRunCaught_cases w vg pv with h | ⟨w1, h1, h⟩
  · rw [h]
    exact localTouch_mono (checkCall_touch w ["lvchange", "-a", "n", vg])
      (fun p hp => hp) (fun p hp => hp) (fun p hp => hp)
      (List.Sublist.cons₂ _ (List.nil_sublist _))
  · rw [h]
    have ht := checkCall_touch w ["lvchange", "-a", "n", vg]
    rw [h1, exWorld_ok] at ht
    have ht2 := checkCall_touch w1 ["losetup", "-d", pv]
    exact localTouch_mono (localTouch_comp ht ht2) (fun p hp => hp) (fun p hp => hp)
      (fun p hp => hp) (sublist_of_listEq (by simp))

theorem vgStage_touch (execute : Bool) (loopbacks : List (String × String)) :
    ∀ (pairs : List (String × String)) (w : World) (cs : List String),
    localTouch [] [] [] (vgLog loopbacks pairs) w (vgStage execute loopbacks pairs w cs).1 := by
  intro pairs
  induction pairs with
  | nil => intro w cs; exact localTouch_id w
  | cons pr rest ih =>
    obtain ⟨pv, vg⟩ := pr
    intro w cs
    cases hl : dictLookup loopbacks pv with
    | none =>
      simp only [vgStage, vgLog, hl]
      exact ih w cs
    | some bf =>
      by_cases hm : strContains bf "/image_mounter_" = true
      · simp only [vgStage, vgLog, hl, hm, if_true]
        cases execute with
        | false =>
          simp only [Bool.false_eq_true, if_false]
          refine localTouch_mono (ih w (cs ++ ["lvchange -a n " ++ vg, "losetup -d " ++ pv]))
            (fun p hp => hp) (fun p hp => hp) (fun p hp => hp) ?_
          exact List.sublist_append_right _ _
        | true =>
          simp only [if_true]
          have hcomp := localTouch_comp (vgRunCaught_touch w vg pv)
            (ih (vgRunCaught w vg pv) (cs ++ ["lvchange -a n " ++ vg, "losetup -d " ++ pv]))
          exact localTouch_mono hcomp (fun p hp => hp) (fun p hp => hp) (fun p hp => hp)
            (List.Sublist.refl _)
      · simp only [vgStage, vgLog, hl, hm, if_false]
        refine localTouch_mono (ih w cs) (fun p hp => hp) (fun p hp => hp) (fun p hp => hp) ?_
        exact sublist_of_listEq (by simp)

theorem sweepStage_touch (execute : Bool) (sel : String → Bool) :
    ∀ (folders : List String) (w : World) (cs : List String),
    localTouch (folders.filter sel) [] [] [] w (sweepStage execute sel folders w cs).1 := by
  intro folders
  induction folders with
  | nil => intro w cs; exact localTouch_id w
  | cons f rest ih =>
    intro w cs
    simp only [sweepStage, List.filter_cons]
    by_cases hs : sel f = true
    · rw [if_pos hs, if_pos hs]
      cases execute with
      | false =>
        simp only [Bool.false_eq_true, if_false]
        exact localTouch_mono (ih w (if ("rm -Rf " ++ f) ∈ cs then cs else cs ++ ["rm -Rf " ++ f]))
          (fun p hp => List.mem_cons_of_mem _ hp) (fun p hp => hp) (fun p hp => hp)
          (List.Sublist.refl _)
      | true =>
        simp only [if_true]
        have hcomp := localTouch_comp (rmdirCaught_touch w f)
          (ih (rmdirCaught w f) (if ("rm -Rf " ++ f) ∈ cs then cs else cs ++ ["rm -Rf " ++ f]))
        refine localTouch_mono hcomp ?_ (fun p hp => hp) (fun p hp => hp) (List.Sublist.refl _)
        intro p hp; simp only [List.singleton_append] at hp; exact hp
    · rw [if_neg hs, if_neg hs]
      exact ih w cs

/-! ## Command-list characterizations -/

theorem mountStage_ok_cs (execute : Bool) (cond : MountEntry → Bool)
    (mk : String → List String) (baseCmd : List String) (rmdirFlag : Bool) :
    ∀ (mounts : List MountEntry) (w : World) (cs : List String) (w' : World) (cs' : List String),
    mountStage execute cond mk baseCmd rmdirFlag mounts w cs = .ok (w', cs') →
    cs' = cs ++ stageCmds cond mk mounts := by
  intro mounts
  induction mounts with
  | nil =>
    intro w cs w' cs' h
    simp only [mountStage, Except.ok.injEq, Prod.mk.injEq] at h
    simp [stageCmds, ← h.2]
  | cons e rest ih =>
    intro w cs w' cs' h
    cases hc : cond e with
    | false =>
      rw [stageCmds_cons_neg hc]
      simp only [mountStage, hc, Bool.false_eq_true, if_false] at h
      exact ih w cs w' cs' h
    | true =>
      rw [stageCmds_cons_pos hc]
      simp only [mountStage, hc, if_true] at h
      cases execute with
      | false =>
        simp only [Bool.false_eq_true, if_false] at h
        rw [ih w (cs ++ mk e.mountpoint) w' cs' h, List.append_assoc]
      | true =>
        simp only [if_true] at h
        cases hr : clean_unmount w baseCmd e.mountpoint 5 rmdirFlag with
        | error we => rw [hr] at h; exact absurd h (by simp)
        | ok pr =>
          obtain ⟨w1, b⟩ := pr
          rw [hr] at h
          rw [ih w1 (cs ++ mk e.mountpoint) w' cs' h, List.append_assoc]

theorem mountStage_dry (cond : MountEntry → Bool) (mk : String → List String)
    (baseCmd : List String) (rmdirFlag : Bool) :
    ∀ (mounts : List MountEntry) (w : World) (cs : List String),
    mountStage false cond mk baseCmd rmdirFlag mounts w cs
      = .ok (w, cs ++ stageCmds cond mk mounts) := by
  intro mounts
  induction mounts with
  | nil => intro w cs; simp [mountStage, stageCmds]
  | cons e rest ih =>
    intro w cs
    cases hc : cond e with
    | false =>
      rw [stageCmds_cons_neg hc]
      simp only [mountStage, hc, Bool.false_eq_true, if_false]
      exact ih w cs
    | true =>
      rw [stageCmds_cons_pos hc]
      simp only [mountStage, hc, if_true, Bool.false_eq_true, if_false]
      rw [ih w (cs ++ mk e.mountpoint), List.append_assoc]

theorem vgStage_cs (execute : Bool) (loopbacks : List (String × String)) :
    ∀ (pairs : List (String × String)) (w : World) (cs : List String),
    (vgStage execute loopbacks pairs w cs).2 = cs ++ vgCmds loopbacks pairs := by
  intro pairs
  induction pairs with
  | nil => intro w cs; simp [vgStage, vgCmds]
  | cons pr rest ih =>
    obtain ⟨pv, vg⟩ := pr
    intro w cs
    cases hl : dictLookup loopbacks pv with
    | none =>
      simp only [vgStage, vgCmds, hl]
      rw [ih w cs]
      simp
    | some bf =>
      by_cases hm : strContains bf "/image_mounter_" = true
      · simp only [vgStage, vgCmds, hl, hm, if_true]
        rw [ih _ (cs ++ ["lvchange -a n " ++ vg, "losetup -d " ++ pv]), List.append_assoc]
      · simp only [vgStage, vgCmds, hl, hm, Bool.false_eq_true, if_false]
        rw [ih w cs]
        simp

theorem vgStage_dry (loopbacks : List (String × String)) :
    ∀ (pairs : List (String × String)) (w : World) (cs : List String),
    (vgStage false loopbacks pairs w cs).1 = w := by
  intro pairs
  induction pairs with
  | nil => intro w cs; rfl
  | cons pr rest ih =>
    obtain ⟨pv, vg⟩ := pr
    intro w cs
    cases hl : dictLookup loopbacks pv with
    | none => simp only [vgStage, hl]; exact ih w cs
    | some bf =>
      by_cases hm : strContains bf "/image_mounter_" = true
      · simp only [vgStage, hl, hm, if_true, Bool.false_eq_true, if_false]
        exact ih _ _
      · simp only [vgStage, hl, hm, Bool.false_eq_true, if_false]
        exact ih w cs

theorem sweepStage_cs (execute : Bool) (sel : String → Bool) :
    ∀ (folders : List String) (w : World) (cs : List String),
    (sweepStage execute sel folders w cs).2 = sweepCmds sel folders cs := by
  intro folders
  induction folders with
  | nil => intro w cs; rfl
  | cons f rest ih =>
    intro w cs
    simp only [sweepStage, sweepCmds]
    by_cases hs : sel f = true
    · rw [if_pos hs, if_pos hs]
      cases execute with
      | false => simp only [Bool.false_eq_true, if_false]; exact ih _ _
      | true => simp only [if_true]; exact ih _ _
    · rw [if_neg hs, if_neg hs]
      exact ih w cs

theorem sweepStage_dry (sel : String → Bool) :
    ∀ (folders : List String) (w : World) (cs : List String),
    (sweepStage false sel folders w cs).1 = w := by
  intro folders
  induction folders with
  | nil => intro w cs; rfl
  | cons f rest ih =>
    intro w cs
    simp only [sweepStage]
    by_cases hs : sel f = true
    · rw [if_pos hs]
      simp only [Bool.false_eq_true, if_false]
      exact ih _ _
    · rw [if_neg hs]
      exact ih w cs

theorem vgStage_dry_pair (loopbacks : List (String × String))
    (pairs : List (String × String)) (w : World) (cs : List String) :
    vgStage false loopbacks pairs w cs = (w, cs ++ vgCmds loopbacks pairs) := by
  have h1 := vgStage_dry loopbacks pairs w cs
  have h2 := vgStage_cs false loopbacks pairs w cs
  cases hv : vgStage false loopbacks pairs w cs
  rw [hv] at h1 h2
  simp only at h1 h2
  rw [h1, h2]

theorem sweepStage_dry_pair (sel : String → Bool) (folders : List String)
    (w : World) (cs : List String) :
    sweepStage false sel folders w cs = (w, sweepCmds sel folders cs) := by
  have h1 := sweepStage_dry sel folders w cs
  have h2 := sweepStage_cs false sel folders w cs
  cases hv : sweepStage false sel folders w cs
  rw [hv] at h1 h2
  simp only at h1 h2
  rw [h1, h2]

/-- A dry run (`execute=False`) computes `planDry` and mutates nothing but
the environment flag. -/
theorem force_clean_dry (w : World) (snap : Snapshot) (pat globPat : String → Bool) :
    force_clean w snap false pat globPat
      = .ok ({ w with lvmSuppress := true }, planDry w snap pat globPat) := by
  simp only [force_clean, mountStage_dry, vgStage_dry_pair, sweepStage_dry_pair]
  simp [planDry, stagePlanPre, globEval, worldEntries, List.append_assoc]

/-! ## sweepCmds lemmas -/

theorem mem_sweepCmds_of_mem (sel : String → Bool) :
    ∀ (L cs : List String) (c : String), c ∈ cs → c ∈ sweepCmds sel L cs := by
  intro L
  induction L with
  | nil => intro cs c hc; exact hc
  | cons f rest ih =>
    intro cs c hc
    simp only [sweepCmds]
    by_cases hs : sel f = true
    · rw [if_pos hs]
      refine ih _ c ?_
      by_cases hm : ("rm -Rf " ++ f) ∈ cs
      · rw [if_pos hm]; exact hc
      · rw [if_neg hm]; exact List.mem_append.mpr (Or.inl hc)
    · rw [if_neg hs]; exact ih cs c hc

theorem mem_sweepCmds_self (sel : String → Bool) :
    ∀ (L cs : List String) (f : String), f ∈ L → sel f = true →
    ("rm -Rf " ++ f) ∈ sweepCmds sel L cs := by
  intro L
  induction L with
  | nil => intro cs f hf; exact absurd hf (List.not_mem_nil f)
  | cons g rest ih =>
    intro cs f hf hsel
    simp only [sweepCmds]
    rcases List.mem_cons.mp hf with hfg | hfr
    · subst hfg
      rw [if_pos hsel]
      refine mem_sweepCmds_of_mem sel rest _ _ ?_
      by_cases hm : ("rm -Rf " ++ f) ∈ cs
      · rw [if_pos hm]; exact hm
      · rw [if_neg hm]; exact List.mem_append.mpr (Or.inr (List.mem_singleton.mpr rfl))
    · by_cases hs : sel g = true
      · rw [if_pos hs]; exact ih _ f hfr hsel
      · rw [if_neg hs]; exact ih cs f hfr hsel

theorem sweepCmds_extends (sel : String → Bool) :
    ∀ (L cs : List String), ∃ ext, sweepCmds sel L cs = cs ++ ext
      ∧ ∀ c ∈ ext, ∃ f, f ∈ L ∧ sel f = true ∧ c = "rm -Rf " ++ f := by
  intro L
  induction L with
  | nil => intro cs; exact ⟨[], by simp [sweepCmds], by simp⟩
  | cons f rest ih =>
    intro cs
    simp only [sweepCmds]
    by_cases hs : sel f = true
    · rw [if_pos hs]
      by_cases hm : ("rm -Rf " ++ f) ∈ cs
      · rw [if_pos hm]
        obtain ⟨ext, he, hsh⟩ := ih cs
        exact ⟨ext, he, fun c hc => by
          obtain ⟨g, hg, hsg, hcg⟩ := hsh c hc
          exact ⟨g, List.mem_cons_of_mem _ hg, hsg, hcg⟩⟩
      · rw [if_neg hm]
        obtain ⟨ext, he, hsh⟩ := ih (cs ++ ["rm -Rf " ++ f])
        refine ⟨("rm -Rf " ++ f) :: ext, by rw [he, List.append_assoc]; rfl, ?_⟩
        intro c hc
        rcases List.mem_cons.mp hc with hcf | hce
        · exact ⟨f, List.mem_cons_self f rest, hs, hcf⟩
        · obtain ⟨g, hg, hsg, hcg⟩ := hsh c hce
          exact ⟨g, List.mem_cons_of_mem _ hg, hsg, hcg⟩
    · rw [if_neg hs]
      obtain ⟨ext, he, hsh⟩ := ih cs
      exact ⟨ext, he, fun c hc => by
        obtain ⟨g, hg, hsg, hcg⟩ := hsh c hc
        exact ⟨g, List.mem_cons_of_mem _ hg, hsg, hcg⟩⟩

/-- The dry-run and execute-mode sweeps enqueue the same commands when the
execute-mode glob list is a sublist of the dry-run one and every entry that
disappeared already has its removal command enqueued. -/
theorem sweepCmds_sublist_eq (sel : String → Bool) :
    ∀ {L L' : List String}, L'.Sublist L → ∀ (cs : List String), L.Nodup →
    (∀ d, d ∈ L → d ∉ L' → sel d = true → ("rm -Rf " ++ d) ∈ cs) →
    sweepCmds sel L cs = sweepCmds sel L' cs := by
  intro L L' hsub
  induction hsub with
  | slnil => intro cs _ _; rfl
  | cons a hsub ih =>
    intro cs hnd hcov
    rename_i l₁ l₂
    simp only [sweepCmds]
    by_cases hs : sel a = true
    · rw [if_pos hs]
      have hna : a ∉ l₁ := fun hl₁ => (List.nodup_cons.mp hnd).1 (hsub.mem hl₁)
      have hrm : ("rm -Rf " ++ a) ∈ cs :=
        hcov a (List.mem_cons_self a l₂) hna hs
      rw [if_pos hrm]
      exact ih cs (List.nodup_cons.mp hnd).2
        (fun d hd hd' hsd => hcov d (List.mem_cons_of_mem _ hd) hd' hsd)
    · rw [if_neg hs]
      exact ih cs (List.nodup_cons.mp hnd).2
        (fun d hd hd' hsd => hcov d (List.mem_cons_of_mem _ hd) hd' hsd)
  | cons₂ a hsub ih =>
    intro cs hnd hcov
    rename_i l₁ l₂
    simp only [sweepCmds]
    by_cases hs : sel a = true
    · rw [if_pos hs, if_pos hs]
      refine ih _ (List.nodup_cons.mp hnd).2 ?_
      intro d hd hd' hsd
      have hda : d ≠ a := fun hda => (List.nodup_cons.mp hnd).1 (hda ▸ hd)
      have hdm : d ∉ a :: l₁ := fun hm => by
        rcases List.mem_cons.mp hm with h | h
        · exact hda h
        · exact hd' h
      have := hcov d (List.mem_cons_of_mem _ hd) hdm hsd
      by_cases hm : ("rm -Rf " ++ a) ∈ cs
      · rw [if_pos hm]; exact this
      · rw [if_neg hm]; exact List.mem_append.mpr (Or.inl this)
    · rw [if_neg hs, if_neg hs]
      refine ih cs (List.nodup_cons.mp hnd).2 ?_
      intro d hd hd' hsd
      have hda : d ≠ a := fun hda => (List.nodup_cons.mp hnd).1 (hda ▸ hd)
      have hdm : d ∉ a :: l₁ := fun hm => by
        rcases List.mem_cons.mp hm with h | h
        · exact hda h
        · exact hd' h
      exact hcov d (List.mem_cons_of_mem _ hd) hdm hsd

/-! ## Stage-set membership lemmas -/

theorem mem_stageDirs {cond : MountEntry → Bool} {mounts : List MountEntry} {p : String}
    (hp : p ∈ stageDirs cond mounts) :
    ∃ e, e ∈ mounts ∧ cond e = true ∧ p = e.mountpoint := by
  simp only [stageDirs, List.mem_map, List.mem_filter] at hp
  obtain ⟨e, ⟨he, hc⟩, hpe⟩ := hp
  exact ⟨e, he, hc, hpe.symm⟩

theorem mem_stageAvfs {cond : MountEntry → Bool} {mounts : List MountEntry} {p : String}
    (hp : p ∈ stageAvfs cond mounts) :
    ∃ e, e ∈ mounts ∧ cond e = true ∧ (p = e.mountpoint ++ "/avfs" ∨ p = e.mountpoint) := by
  simp only [stageAvfs, List.mem_flatMap, List.mem_filter] at hp
  obtain ⟨e, ⟨he, hc⟩, hpe⟩ := hp
  simp only [List.mem_cons, List.mem_singleton, List.not_mem_nil, or_false] at hpe
  exact ⟨e, he, hc, hpe⟩

theorem mem_stageAvfsOnly {cond : MountEntry → Bool} {mounts : List MountEntry} {p : String}
    (hp : p ∈ stageAvfsOnly cond mounts) :
    ∃ e, e ∈ mounts ∧ cond e = true ∧ p = e.mountpoint ++ "/avfs" := by
  simp only [stageAvfsOnly, List.mem_map, List.mem_filter] at hp
  obtain ⟨e, ⟨he, hc⟩, hpe⟩ := hp
  exact ⟨e, he, hc, hpe.symm⟩

theorem mem_stageLog {cond : MountEntry → Bool} {baseCmd : List String}
    {mounts : List MountEntry} {v : List String} (hv : v ∈ stageLog cond baseCmd mounts) :
    ∃ e, e ∈ mounts ∧ cond e = true ∧ v = baseCmd ++ [e.mountpoint] := by
  simp only [stageLog, List.mem_map, List.mem_filter] at hv
  obtain ⟨e, ⟨he, hc⟩, hve⟩ := hv
  exact ⟨e, he, hc, hve.symm⟩

theorem mem_vgLog {loopbacks : List (String × String)} :
    ∀ {pairs : List (String × String)} {v : List String}, v ∈ vgLog loopbacks pairs →
    ∃ pv vg bf, (pv, vg) ∈ pairs ∧ dictLookup loopbacks pv = some bf
      ∧ strContains bf "/image_mounter_" = true
      ∧ (v = ["lvchange", "-a", "n", vg] ∨ v = ["losetup", "-d", pv]) := by
  intro pairs
  induction pairs with
  | nil => intro v hv; exact absurd hv (List.not_mem_nil v)
  | cons pr rest ih =>
    obtain ⟨pv, vg⟩ := pr
    intro v hv
    simp only [vgLog, List.mem_append] at hv
    rcases hv with hv | hv
    · cases hl : dictLookup loopbacks pv with
      | none =>
        rw [hl] at hv
        dsimp only at hv
        exact absurd hv (List.not_mem_nil v)
      | some bf =>
        rw [hl] at hv
        dsimp only at hv
        by_cases hm : strContains bf "/image_mounter_" = true
        · rw [if_pos hm] at hv
          simp only [List.mem_cons, List.mem_singleton, List.not_mem_nil, or_false] at hv
          exact ⟨pv, vg, bf, List.mem_cons_self _ _, hl, hm, hv⟩
        · rw [if_neg hm] at hv; exact absurd hv (List.not_mem_nil v)
    · obtain ⟨pv', vg', bf', hpr, hl, hm, hshape⟩ := ih hv
      exact ⟨pv', vg', bf', List.mem_cons_of_mem _ hpr, hl, hm, hshape⟩

theorem rm_mem_stageCmds {cond : MountEntry → Bool} {mk : String → List String}
    {mounts : List MountEntry} {d : String} (hmk : ∀ mp, ("rm -Rf " ++ mp) ∈ mk mp)
    (hd : d ∈ stageDirs cond mounts) : ("rm -Rf " ++ d) ∈ stageCmds cond mk mounts := by
  simp only [stageDirs, List.mem_map] at hd
  obtain ⟨e, he, hde⟩ := hd
  simp only [stageCmds, List.mem_flatMap]
  exact ⟨e, he, hde ▸ hmk e.mountpoint⟩

/-! ## The execute-mode pipeline decomposed -/

/-- When `force_clean` returns, its result decomposes into the successive
stage results. -/
theorem force_clean_ok_chain (w : World) (snap : Snapshot) (execute : Bool)
    (pat globPat : String → Bool) {w' : World} {cs : List String}
    (h : force_clean w snap execute pat globPat = .ok (w', cs)) :
    ∃ w1 cs1 w2 cs2 w4 cs4,
      mountStage execute (bindCond pat) bindMk ["umount"] false snap.mounts
        { w with lvmSuppress := true } [] = .ok (w1, cs1)
      ∧ mountStage execute (mainCond pat) mainMk ["umount"] true snap.mounts w1 cs1
          = .ok (w2, cs2)
      ∧ mountStage execute fuseCond fuseMk ["fusermount", "-u"] true snap.mounts
          (vgStage execute snap.loopbacks snap.vgPairs w2 cs2).1
          (vgStage execute snap.loopbacks snap.vgPairs w2 cs2).2 = .ok (w4, cs4)
      ∧ w' = (sweepStage execute (fun _ => true)
            (globEval (sweepStage execute pat (globEval w4 globPat) w4 cs4).1 imGlobMatch)
            (sweepStage execute pat (globEval w4 globPat) w4 cs4).1
            (sweepStage execute pat (globEval w4 globPat) w4 cs4).2).1
      ∧ cs = (sweepStage execute (fun _ => true)
            (globEval (sweepStage execute pat (globEval w4 globPat) w4 cs4).1 imGlobMatch)
            (sweepStage execute pat (globEval w4 globPat) w4 cs4).1
            (sweepStage execute pat (globEval w4 globPat) w4 cs4).2).2 := by
  simp only [force_clean] at h
  cases h1 : mountStage execute (bindCond pat) bindMk ["umount"] false snap.mounts
      { w with lvmSuppress := true } [] with
  | error we => rw [h1] at h; exact absurd h (by simp)
  | ok pr1 =>
    obtain ⟨w1, cs1⟩ := pr1
    rw [h1] at h
    dsimp only at h
    cases h2 : mountStage execute (mainCond pat) mainMk ["umount"] true snap.mounts w1 cs1 with
    | error we => rw [h2] at h; exact absurd h (by simp)
    | ok pr2 =>
      obtain ⟨w2, cs2⟩ := pr2
      rw [h2] at h
      dsimp only at h
      cases h4 : mountStage execute fuseCond fuseMk ["fusermount", "-u"] true snap.mounts
          (vgStage execute snap.loopbacks snap.vgPairs w2 cs2).1
          (vgStage execute snap.loopbacks snap.vgPairs w2 cs2).2 with
      | error we => rw [h4] at h; exact absurd h (by simp)
      | ok pr4 =>
        obtain ⟨w4, cs4⟩ := pr4
        rw [h4] at h
        dsimp only at h
        simp only [Except.ok.injEq, Prod.mk.injEq] at h
        exact ⟨w1, cs1, w2, cs2, w4, cs4, rfl, h2, h4, h.1.symm, h.2.symm⟩

theorem worldOf_ok (w : World) (cs : List String) :
    worldOf (.ok (w, cs)) = w := rfl

theorem stageDirs_mem_of {cond : MountEntry → Bool} {mounts : List MountEntry}
    {e : MountEntry} (he : e ∈ mounts) (hc : cond e = true) :
    e.mountpoint ∈ stageDirs cond mounts := by
  simp only [stageDirs, List.mem_map]
  exact ⟨e, List.mem_filter.mpr ⟨he, hc⟩, rfl⟩

theorem entries_removed_cases {w w' : World} {Dd Df Ds : List String}
    (hd : erasedOnly Dd w.dirs w'.dirs) (hf : erasedOnly Df w.files w'.files)
    (hs : erasedOnly Ds w.symlinks w'.symlinks)
    {p : String} (hp : p ∈ worldEntries w) (hp' : p ∉ worldEntries w') :
    p ∈ Dd ∨ p ∈ Df ∨ p ∈ Ds := by
  simp only [worldEntries, List.mem_append] at hp hp'
  push_neg at hp'
  rcases hp with (h | h) | h
  · exact Or.inl (hd.2 p h hp'.1.1)
  · exact Or.inr (Or.inl (hf.2 p h hp'.1.2))
  · exact Or.inr (Or.inr (hs.2 p h hp'.2))

theorem entries_sublist {w w' : World} {Dd Df Ds : List String}
    (hd : erasedOnly Dd w.dirs w'.dirs) (hf : erasedOnly Df w.files w'.files)
    (hs : erasedOnly Ds w.symlinks w'.symlinks) :
    (worldEntries w').Sublist (worldEntries w) :=
  List.Sublist.append (List.Sublist.append hd.1 hf.1) hs.1

theorem rm_mem_stagePlanPre_main {snap : Snapshot} {pat : String → Bool} {d : String}
    (hd : d ∈ stageDirs (mainCond pat) snap.mounts) :
    ("rm -Rf " ++ d) ∈ stagePlanPre snap pat := by
  have := @rm_mem_stageCmds _ mainMk _ _ (fun mp => by simp [mainMk]) hd
  simp only [stagePlanPre, List.mem_append]
  tauto

theorem rm_mem_stagePlanPre_fuse {snap : Snapshot} {pat : String → Bool} {d : String}
    (hd : d ∈ stageDirs fuseCond snap.mounts) :
    ("rm -Rf " ++ d) ∈ stagePlanPre snap pat := by
  have := @rm_mem_stageCmds _ fuseMk _ _ (fun mp => by simp [fuseMk]) hd
  simp only [stagePlanPre, List.mem_append]
  tauto

/-- The combined file/symlink touch set of stages 1, 2 and 5: every member
is either an avfs marker of some table entry, or a mountpoint whose removal
command is already in the pre-sweep plan. -/
theorem fset_char {snap : Snapshot} {pat : String → Bool} {d : String}
    (hd : d ∈ stageAvfsOnly (bindCond pat) snap.mounts
        ++ stageAvfs (mainCond pat) snap.mounts ++ stageAvfs fuseCond snap.mounts) :
    (∃ e, e ∈ snap.mounts ∧ d = e.mountpoint ++ "/avfs")
    ∨ ("rm -Rf " ++ d) ∈ stagePlanPre snap pat := by
  simp only [List.mem_append] at hd
  rcases hd with (hd | hd) | hd
  · obtain ⟨e, he, _, hde⟩ := mem_stageAvfsOnly hd
    exact Or.inl ⟨e, he, hde⟩
  · obtain ⟨e, he, hc, hde⟩ := mem_stageAvfs hd
    rcases hde with hde | hde
    · exact Or.inl ⟨e, he, hde⟩
    · exact Or.inr (hde ▸ rm_mem_stagePlanPre_main (stageDirs_mem_of he hc))
  · obtain ⟨e, he, hc, hde⟩ := mem_stageAvfs hd
    rcases hde with hde | hde
    · exact Or.inl ⟨e, he, hde⟩
    · exact Or.inr (hde ▸ rm_mem_stagePlanPre_fuse (stageDirs_mem_of he hc))

/-- The combined directory touch set of stages 1-5. -/
theorem dset_char {snap : Snapshot} {pat : String → Bool} {d : String}
    (hd : d ∈ stageDirs (mainCond pat) snap.mounts ++ stageDirs fuseCond snap.mounts) :
    ("rm -Rf " ++ d) ∈ stagePlanPre snap pat := by
  rcases List.mem_append.mp hd with hd | hd
  · exact rm_mem_stagePlanPre_main hd
  · exact rm_mem_stagePlanPre_fuse hd

/-- In execute mode, whenever `force_clean` returns, it returns exactly the
dry-run plan: every directory, file or symlink removed before a sweep glob
ran either already carries an enqueued `rm -Rf` entry or is an `avfs`
marker the globs cannot match, so the sweep dedup absorbs the difference. -/
theorem force_clean_exec_cs (w : World) (snap : Snapshot) (pat globPat : String → Bool)
    (hnd : (worldEntries w).Nodup)
    (havG : ∀ e ∈ snap.mounts, globPat (e.mountpoint ++ "/avfs") = false)
    (havI : ∀ e ∈ snap.mounts, imGlobMatch (e.mountpoint ++ "/avfs") = false)
    {w' : World} {cs : List String}
    (h : force_clean w snap true pat globPat = .ok (w', cs)) :
    cs = planDry w snap pat globPat := by
  obtain ⟨w1, cs1, w2, cs2, w4, cs4, h1, h2, h4, hw', hcs⟩ :=
    force_clean_ok_chain w snap true pat globPat h
  have hcs1 := mountStage_ok_cs true (bindCond pat) bindMk ["umount"] false snap.mounts _ _ _ _ h1
  have hcs2 := mountStage_ok_cs true (mainCond pat) mainMk ["umount"] true snap.mounts _ _ _ _ h2
  have hcs3 := vgStage_cs true snap.loopbacks snap.vgPairs w2 cs2
  have hcs4 := mountStage_ok_cs true fuseCond fuseMk ["fusermount", "-u"] true snap.mounts
    _ _ _ _ h4
  have hcs4' : cs4 = stagePlanPre snap pat := by
    rw [hcs4, hcs3, hcs2, hcs1]
    simp [stagePlanPre, List.append_assoc]
  have t1 := mountStage_noRm_touch true (bindCond pat) bindMk ["umount"] snap.mounts
    { w with lvmSuppress := true } []
  rw [h1, worldOf_ok] at t1
  have t2 := mountStage_touch true (mainCond pat) mainMk ["umount"] true snap.mounts w1 cs1
  rw [h2, worldOf_ok] at t2
  have t3 := vgStage_touch true snap.loopbacks snap.vgPairs w2 cs2
  have t4 := mountStage_touch true fuseCond fuseMk ["fusermount", "-u"] true snap.mounts
    (vgStage true snap.loopbacks snap.vgPairs w2 cs2).1
    (vgStage true snap.loopbacks snap.vgPairs w2 cs2).2
  rw [h4, worldOf_ok] at t4
  have T := localTouch_comp t1 (localTouch_comp t2 (localTouch_comp t3 t4))
  have T' : localTouch
      (stageDirs (mainCond pat) snap.mounts ++ stageDirs fuseCond snap.mounts)
      (stageAvfsOnly (bindCond pat) snap.mounts ++ stageAvfs (mainCond pat) snap.mounts
        ++ stageAvfs fuseCond snap.mounts)
      (stageAvfsOnly (bindCond pat) snap.mounts ++ stageAvfs (mainCond pat) snap.mounts
        ++ stageAvfs fuseCond snap.mounts)
      (stageLog (bindCond pat) ["umount"] snap.mounts
        ++ stageLog (mainCond pat) ["umount"] snap.mounts
        ++ vgLog snap.loopbacks snap.vgPairs
        ++ stageLog fuseCond ["fusermount", "-u"] snap.mounts)
      { w with lvmSuppress := true } w4 := by
    refine localTouch_mono T ?_ ?_ ?_ ?_
    · intro p hp; simp only [List.nil_append, List.mem_append] at hp ⊢; tauto
    · intro p hp; simp only [List.mem_append] at hp ⊢; tauto
    · intro p hp; simp only [List.mem_append] at hp ⊢; tauto
    · exact sublist_of_listEq (by simp [List.append_assoc])
  have t5 := sweepStage_touch true pat (globEval w4 globPat) w4 cs4
  have T7 := localTouch_comp T' t5
  have hrm4 : ∀ d, d ∈ worldEntries w → d ∉ worldEntries w4 → globPat d = true →
      ("rm -Rf " ++ d) ∈ stagePlanPre snap pat := by
    intro d hdw hd4 hgd
    rcases entries_removed_cases T'.1 T'.2.1 T'.2.2.1 hdw hd4 with hD | hF | hF
    · exact dset_char hD
    · rcases fset_char hF with ⟨e, he, hde⟩ | hin
      · rw [hde, havG e he] at hgd; exact absurd hgd (by simp)
      · exact hin
    · rcases fset_char hF with ⟨e, he, hde⟩ | hin
      · rw [hde, havG e he] at hgd; exact absurd hgd (by simp)
      · exact hin
  have hcov6 : ∀ d, d ∈ globEval w globPat → d ∉ globEval w4 globPat → pat d = true →
      ("rm -Rf " ++ d) ∈ cs4 := by
    intro d hd hd4 _
    have hdw := List.mem_filter.mp hd
    have hdnw4 : d ∉ worldEntries w4 := fun hmem => hd4 (List.mem_filter.mpr ⟨hmem, hdw.2⟩)
    rw [hcs4']
    exact hrm4 d hdw.1 hdnw4 hdw.2
  have hstep6 : sweepCmds pat (globEval w globPat) cs4
      = sweepCmds pat (globEval w4 globPat) cs4 :=
    sweepCmds_sublist_eq pat
      (List.Sublist.filter globPat (entries_sublist T'.1 T'.2.1 T'.2.2.1)) cs4
      (List.Nodup.filter globPat hnd) hcov6
  have hcov7 : ∀ d, d ∈ globEval w imGlobMatch →
      d ∉ globEval (sweepStage true pat (globEval w4 globPat) w4 cs4).1 imGlobMatch →
      ("rm -Rf " ++ d) ∈ sweepCmds pat (globEval w4 globPat) cs4 := by
    intro d hd hd5
    have hdw := List.mem_filter.mp hd
    have hdnw5 : d ∉ worldEntries (sweepStage true pat (globEval w4 globPat) w4 cs4).1 :=
      fun hmem => hd5 (List.mem_filter.mpr ⟨hmem, hdw.2⟩)
    rcases entries_removed_cases T7.1 T7.2.1 T7.2.2.1 hdw.1 hdnw5 with hD | hF | hF
    · rcases List.mem_append.mp hD with hD | hD
      · refine mem_sweepCmds_of_mem pat _ cs4 _ ?_
        rw [hcs4']
        exact dset_char hD
      · have hd6 := List.mem_filter.mp hD
        exact mem_sweepCmds_self pat (globEval w4 globPat) cs4 d hd6.1 hd6.2
    · rw [List.append_nil] at hF
      rcases fset_char hF with ⟨e, he, hde⟩ | hin
      · have hgd := hdw.2
        rw [hde, havI e he] at hgd
        exact absurd hgd (by simp)
      · refine mem_sweepCmds_of_mem pat _ cs4 _ ?_
        rw [hcs4']
        exact hin
    · rw [List.append_nil] at hF
      rcases fset_char hF with ⟨e, he, hde⟩ | hin
      · have hgd := hdw.2
        rw [hde, havI e he] at hgd
        exact absurd hgd (by simp)
      · refine mem_sweepCmds_of_mem pat _ cs4 _ ?_
        rw [hcs4']
        exact hin
  have hstep7 : sweepCmds (fun _ => true) (globEval w imGlobMatch)
        (sweepCmds pat (globEval w4 globPat) cs4)
      = sweepCmds (fun _ => true)
        (globEval (sweepStage true pat (globEval w4 globPat) w4 cs4).1 imGlobMatch)
        (sweepCmds pat (globEval w4 globPat) cs4) :=
    sweepCmds_sublist_eq (fun _ => true)
      (List.Sublist.filter imGlobMatch (entries_sublist T7.1 T7.2.1 T7.2.2.1))
      _ (List.Nodup.filter imGlobMatch hnd) (fun d hd hd' _ => hcov7 d hd hd')
  rw [hcs, sweepStage_cs, sweepStage_cs, ← hstep7, ← hstep6, hcs4']
  rfl

/-! ## Concrete worlds and snapshots used as witnesses and counterexamples -/

/-- A pattern matching nothing. -/
def patNone : String → Bool := fun _ => false

/-- An empty, quiescent world. -/
def w0c : World :=
  { files := [], dirs := [], symlinks := [], mountedPaths := [], stuckMounts := [],
    cmdFails := fun _ => false, log := [], lvmSuppress := false }

/-- An empty snapshot. -/
def snapEmpty : Snapshot := { mounts := [], loopbacks := [], vgPairs := [] }

/-! ## Helper results for the unmount primitive's poll loop -/

theorem unmountPoll_of_isMount {w : World} {mp : String} (h : isMount w mp = true) :
    ∀ n, unmountPoll w mp n = .ok w := by
  intro n
  induction n with
  | zero => rfl
  | succ n ih =>
    show (if isMount w mp then unmountPoll w mp n
          else if isLink w mp then osRemove w mp else osRmdir w mp) = .ok w
    rw [if_pos h]
    exact ih

theorem applyCmdEffect_append_stuck {w : World} {mp : String} (hs : mp ∈ w.stuckMounts)
    (cmd : List String) : applyCmdEffect w (clean_unmount_cmd cmd mp) = w := by
  unfold clean_unmount_cmd applyCmdEffect
  split
  · rename_i x heq
    have hx : x = mp := by
      have h1 : (cmd ++ [mp]).getLast? = some mp := List.getLast?_concat cmd
      rw [heq] at h1
      simpa using h1
    rw [if_pos (hx ▸ hs)]
  · rename_i x heq
    have hx : x = mp := by
      have h1 : (cmd ++ [mp]).getLast? = some mp := List.getLast?_concat cmd
      rw [heq] at h1
      simpa using h1
    rw [if_pos (hx ▸ hs)]
  · rfl

/-! ## C8: symlink mountpoints skip the unmount command -/

/-- C8: for a mountpoint that is a symbolic link (with no avfs marker
entry), `clean_unmount` with `rmdir=True` never invokes the unmount
command (the log is unchanged), unlinks the link, and returns `True`. -/
theorem c8_symlink_skips_unmount (w : World) (cmd : List String) (mp : String) (tries : Nat)
    (htries : 0 < tries)
    (hav : pathExists w (mp ++ "/avfs") = false)
    (hlink : mp ∈ w.symlinks)
    (hnotfile : mp ∉ w.files)
    (hnotdir : mp ∉ w.dirs) :
    clean_unmount w cmd mp tries true
      = .ok ({ w with symlinks := w.symlinks.erase mp }, true)
    ∧ (cuWorld (clean_unmount w cmd mp tries true)).log = w.log := by
  obtain ⟨n, rfl⟩ : ∃ n, tries = n + 1 :=
    ⟨tries - 1, (Nat.succ_pred_eq_of_pos htries).symm⟩
  have hmain : clean_unmount w cmd mp (n + 1) true
      = .ok ({ w with symlinks := w.symlinks.erase mp }, true) := by
    unfold clean_unmount
    rw [if_neg (by rw [hav]; exact Bool.false_ne_true)]
    rw [if_pos (by simp [isLink, hlink])]
    unfold finishUnmount
    rw [if_neg (by simp)]
    have hpoll : unmountPoll w mp (n + 1)
        = .ok { w with symlinks := w.symlinks.erase mp } := by
      show (if isMount w mp then unmountPoll w mp n
            else if isLink w mp then osRemove w mp else osRmdir w mp) = _
      rw [if_neg (by simp [isMount, hlink]), if_pos (by simp [isLink, hlink])]
      unfold osRemove
      rw [if_neg hnotfile, if_pos hlink]
    rw [hpoll]
    simp [hnotdir]
  refine ⟨hmain, ?_⟩
  rw [hmain, cuWorld_ok]

/-- C8 witness: a concrete symlink mountpoint. -/
theorem c8_symlink_skips_unmount_witness :
    clean_unmount { w0c with symlinks := ["/tmp/im_2_l"] } ["umount"] "/tmp/im_2_l" 5 true
      = .ok ({ w0c with symlinks := List.erase ["/tmp/im_2_l"] "/tmp/im_2_l" }, true)
    ∧ (cuWorld (clean_unmount { w0c with symlinks := ["/tmp/im_2_l"] }
        ["umount"] "/tmp/im_2_l" 5 true)).log = [] :=
  c8_symlink_skips_unmount { w0c with symlinks := ["/tmp/im_2_l"] } ["umount"] "/tmp/im_2_l" 5
    (by decide) (by decide) (by decide) (by decide) (by decide)

/-! ## C9: a mountpoint that stays mounted -/

/-- C9: for a mountpoint directory still reported mounted after every poll
of the wait budget, `clean_unmount` with `rmdir=True` returns `False`,
leaves the directory in place, and raises no exception. -/
theorem c9_stuck_mount_reports_failure (w : World) (cmd : List String) (mp : String)
    (tries : Nat)
    (hav : pathExists w (mp ++ "/avfs") = false)
    (hnolink : mp ∉ w.symlinks)
    (hdir : mp ∈ w.dirs)
    (hmounted : mp ∈ w.mountedPaths)
    (hstuck : mp ∈ w.stuckMounts)
    (hcmd : w.cmdFails (clean_unmount_cmd cmd mp) = false) :
    ∃ w', clean_unmount w cmd mp tries true = .ok (w', false)
      ∧ w'.dirs = w.dirs ∧ mp ∈ w'.dirs := by
  refine ⟨{ w with log := w.log ++ [clean_unmount_cmd cmd mp] }, ?_, rfl, hdir⟩
  unfold clean_unmount
  rw [if_neg (by rw [hav]; exact Bool.false_ne_true)]
  rw [if_neg (by simp [isLink, hnolink])]
  have hcc : checkCall w (clean_unmount_cmd cmd mp)
      = .ok { w with log := w.log ++ [clean_unmount_cmd cmd mp] } := by
    unfold checkCall
    rw [if_neg (by rw [hcmd]; exact Bool.false_ne_true)]
    rw [@applyCmdEffect_append_stuck { w with log := w.log ++ [clean_unmount_cmd cmd mp] } mp
      hstuck cmd]
  rw [hcc]
  dsimp only
  unfold finishUnmount
  rw [if_neg (by simp)]
  rw [unmountPoll_of_isMount (by simp [isMount, hmounted, hnolink]) tries]
  simp [hdir]

/-- C9 witness: a concrete stuck mountpoint. -/
theorem c9_stuck_mount_reports_failure_witness :
    ∃ w', clean_unmount
        { w0c with dirs := ["/mnt/a"], mountedPaths := ["/mnt/a"], stuckMounts := ["/mnt/a"] }
        ["umount"] "/mnt/a" 5 true = .ok (w', false)
      ∧ w'.dirs = ["/mnt/a"] ∧ "/mnt/a" ∈ w'.dirs :=
  c9_stuck_mount_reports_failure
    { w0c with dirs := ["/mnt/a"], mountedPaths := ["/mnt/a"], stuckMounts := ["/mnt/a"] }
    ["umount"] "/mnt/a" 5 (by decide) (by decide) (by decide) (by decide) (by decide) (by decide)

/-! ## C10: the caller-supplied command list is mutated -/

/-- C10: `clean_unmount` appends the mountpoint to the caller-supplied
command list before use (`cmd.append(mountpoint)`): the caller's aliased
list is one element longer after every call, and reusing the same list
across calls accumulates the mountpoints. -/
theorem c10_cmd_list_mutation (cmd : List String) (mp mp2 : String) :
    clean_unmount_cmd cmd mp = cmd ++ [mp]
    ∧ (clean_unmount_cmd cmd mp).length = cmd.length + 1
    ∧ clean_unmount_cmd (clean_unmount_cmd cmd mp) mp2 = cmd ++ [mp, mp2] :=
  ⟨rfl, by simp [clean_unmount_cmd], by simp [clean_unmount_cmd]⟩

/-! ## C6: an isolated volume-group / loopback chain -/

/-- The C6 snapshot: one volume-group pairing whose physical volume is a
loopback device backed by a marker-carrying image file, nothing else. -/
def snap6c : Snapshot :=
  { mounts := [],
    loopbacks := [("/dev/loop0", "/tmp/image_mounter_1/file.dd")],
    vgPairs := [("/dev/loop0", "vg1")] }

/-- C6: with volume group `vg1` on physical volume `/dev/loop0`, backed by
`/tmp/image_mounter_1/file.dd`, and no other entries, the plan is exactly
`lvchange -a n vg1` followed immediately by `losetup -d /dev/loop0`,
whatever the caller-supplied pattern and glob are. -/
theorem c6_vg_chain_two_ops (pat globPat : String → Bool) :
    planOf (force_clean w0c snap6c false pat globPat)
      = ["lvchange -a n vg1", "losetup -d /dev/loop0"] := by
  rw [force_clean_dry]
  have hl : dictLookup [("/dev/loop0", "/tmp/image_mounter_1/file.dd")] "/dev/loop0"
      = some "/tmp/image_mounter_1/file.dd" := by decide
  have hm : strContains "/tmp/image_mounter_1/file.dd" "/image_mounter_" = true := by decide
  simp [planOf, planDry, stagePlanPre, stageCmds, vgCmds, sweepCmds, globEval, worldEntries,
    w0c, snap6c, hl, hm]

/-! ## Counterexamples for C3, C4, C5, C7 -/

/-- The C3 counterexample world: a matched, mounted, non-empty mountpoint
directory (it contains `/tmp/im_1_a/x`). -/
def w3c : World :=
  { w0c with dirs := ["/tmp/im_1_a", "/tmp/im_1_a/x"], mountedPaths := ["/tmp/im_1_a"] }

/-- The C3 counterexample snapshot: one matched regular mount. -/
def snap3c : Snapshot :=
  { mounts := [{ mountpoint := "/tmp/im_1_a", orig := "/dev/sdb1", fs := "ext4", opts := "rw" }],
    loopbacks := [], vgPairs := [] }

/-- A pattern matching exactly `/tmp/im_1_a`. -/
def pat3c : String → Bool := fun s => s == "/tmp/im_1_a"

/-- C3 counterexample: in execute mode, with a matched mountpoint whose
unmount succeeds but whose directory is non-empty, the `os.rmdir` inside
`clean_unmount` raises an uncaught `OSError` that propagates out of
`force_clean` — `force_clean` does not always run to completion. -/
theorem c3_counterexample_raises :
    raised (force_clean w3c snap3c true pat3c patNone) = true := by decide

/-- C4 counterexample: `force_clean` with `execute=False` sets the
`LVM_SUPPRESS_FD_WARNINGS` process-environment variable (line 136 runs
before the `execute` flag is ever consulted), so a dry run is not free of
observable process-environment mutation. -/
theorem c4_counterexample_env_mutation :
    w0c.lvmSuppress = false
    ∧ (worldOf (force_clean w0c snapEmpty false patNone patNone)).lvmSuppress = true :=
  ⟨rfl, rfl⟩

/-- The C5 counterexample snapshot: one mountpoint that is matched both by
stage 2 (marker in its mount source) and stage 5 (marker in the mountpoint
path itself). -/
def snap5c : Snapshot :=
  { mounts := [{ mountpoint := "/tmp/image_mounter_1", orig := "/tmp/image_mounter_0/img.dd", fs := "fuse", opts := "rw" }],
    loopbacks := [], vgPairs := [] }

/-- C5 counterexample: the same `rm -Rf` command is enqueued twice for one
mountpoint matched in stages 2 and 5; the returned command list is not
duplicate-free. -/
theorem c5_counterexample_duplicate :
    List.count "rm -Rf /tmp/image_mounter_1"
        (planOf (force_clean w0c snap5c false patNone patNone)) = 2
    ∧ ¬ (planOf (force_clean w0c snap5c false patNone patNone)).Nodup := by
  exact ⟨by decide, by decide⟩

/-- The C7 counterexample world: a non-empty `/tmp/image_mounter_*`
directory. -/
def w7c : World := { w0c with dirs := ["/tmp/image_mounter_1", "/tmp/image_mounter_1/sub"] }

/-- C7 counterexample: in execute mode the sweep attempts `os.rmdir`, not a
recursive removal: the non-empty directory `/tmp/image_mounter_1` has its
`rm -Rf` command enqueued but survives execution together with its
contents. -/
theorem c7_counterexample_not_recursive :
    planOf (force_clean w7c snapEmpty true patNone patNone) = ["rm -Rf /tmp/image_mounter_1"]
    ∧ (worldOf (force_clean w7c snapEmpty true patNone patNone)).dirs
        = ["/tmp/image_mounter_1", "/tmp/image_mounter_1/sub"] := by
  exact ⟨by decide, by decide⟩

/-! ## C4 (amended): dry-run / execute equivalence of the returned plan -/

/-- C4 (amended): for a fixed snapshot, whenever the execute-mode run
returns at all (it can instead raise, see C3), the dry run returns exactly
the same ordered command list, and the dry run executes no commands and
touches no files or directories — its only mutation is setting the
`LVM_SUPPRESS_FD_WARNINGS` environment flag. Side conditions: the live
directory listing has no duplicate paths, and neither sweep glob matches
an `avfs` marker path (automatic for real glob patterns, whose `*` cannot
cross the `/` in `<mountpoint>/avfs`). -/
theorem c4_dry_run_equivalence (w : World) (snap : Snapshot) (pat globPat : String → Bool)
    (hnd : (worldEntries w).Nodup)
    (havG : ∀ e ∈ snap.mounts, globPat (e.mountpoint ++ "/avfs") = false)
    (havI : ∀ e ∈ snap.mounts, imGlobMatch (e.mountpoint ++ "/avfs") = false)
    (w' : World) (cs : List String)
    (h : force_clean w snap true pat globPat = .ok (w', cs)) :
    force_clean w snap false pat globPat = .ok ({ w with lvmSuppress := true }, cs) := by
  rw [force_clean_dry, force_clean_exec_cs w snap pat globPat hnd havG havI h]

/-- The C4 witness world: one matched, mounted, removable mountpoint, so
the execute run actually unmounts and deletes it before the sweeps. -/
def wC4 : World := { w0c with dirs := ["/tmp/im_9_z"], mountedPaths := ["/tmp/im_9_z"] }

/-- The C4 witness snapshot. -/
def snapC4 : Snapshot :=
  { mounts := [{ mountpoint := "/tmp/im_9_z", orig := "/dev/sdb1", fs := "ext4", opts := "rw" }],
    loopbacks := [], vgPairs := [] }

/-- A pattern matching exactly `/tmp/im_9_z`. -/
def patC4 : String → Bool := fun s => s == "/tmp/im_9_z"

/-- C4 witness: on a concrete snapshot where execution removes the matched
directory before the sweep glob runs, the dry run still returns the very
same list. -/
theorem c4_dry_run_equivalence_witness :
    force_clean wC4 snapC4 false patC4 patC4
      = .ok ({ wC4 with lvmSuppress := true },
          planOf (force_clean wC4 snapC4 true patC4 patC4)) :=
  c4_dry_run_equivalence wC4 snapC4 patC4 patC4 (by decide) (by decide) (by decide)
    (worldOf (force_clean wC4 snapC4 true patC4 patC4))
    (planOf (force_clean wC4 snapC4 true patC4 patC4)) rfl

/-! ## C5 (amended): dedup holds in the sweep stages only -/

/-- The command list of any completed `force_clean` run is the pre-sweep
stage plan extended by the two dedup-guarded sweeps. -/
theorem force_clean_cs_shape (w : World) (snap : Snapshot) (execute : Bool)
    (pat globPat : String → Bool) {w' : World} {cs : List String}
    (h : force_clean w snap execute pat globPat = .ok (w', cs)) :
    ∃ L1 L2, cs = sweepCmds (fun _ => true) L2 (sweepCmds pat L1 (stagePlanPre snap pat)) := by
  obtain ⟨w1, cs1, w2, cs2, w4, cs4, h1, h2, h4, hw', hcs⟩ :=
    force_clean_ok_chain w snap execute pat globPat h
  have hcs1 := mountStage_ok_cs execute (bindCond pat) bindMk ["umount"] false snap.mounts
    _ _ _ _ h1
  have hcs2 := mountStage_ok_cs execute (mainCond pat) mainMk ["umount"] true snap.mounts
    _ _ _ _ h2
  have hcs3 := vgStage_cs execute snap.loopbacks snap.vgPairs w2 cs2
  have hcs4 := mountStage_ok_cs execute fuseCond fuseMk ["fusermount", "-u"] true snap.mounts
    _ _ _ _ h4
  have hcs4' : cs4 = stagePlanPre snap pat := by
    rw [hcs4, hcs3, hcs2, hcs1]
    simp [stagePlanPre, List.append_assoc]
  refine ⟨globEval w4 globPat,
    globEval (sweepStage execute pat (globEval w4 globPat) w4 cs4).1 imGlobMatch, ?_⟩
  rw [hcs, sweepStage_cs, sweepStage_cs, hcs4']

/-- A sweep never raises a command's multiplicity above `max` of its
pre-sweep multiplicity and one. -/
theorem sweepCmds_count_le (sel : String → Bool) :
    ∀ (L cs : List String) (c : String),
    List.count c (sweepCmds sel L cs) ≤ max (List.count c cs) 1 := by
  intro L
  induction L with
  | nil => intro cs c; exact le_max_left _ _
  | cons f rest ih =>
    intro cs c
    simp only [sweepCmds]
    by_cases hs : sel f = true
    · rw [if_pos hs]
      by_cases hm : ("rm -Rf " ++ f) ∈ cs
      · rw [if_pos hm]; exact ih cs c
      · rw [if_neg hm]
        refine le_trans (ih _ c) ?_
        by_cases hc : ("rm -Rf " ++ f) = c
        · have hcount : List.count c (cs ++ ["rm -Rf " ++ f]) = 1 := by
            rw [List.count_append, List.count_eq_zero.mpr (hc ▸ hm)]
            simp [hc]
          rw [hcount]
          simp
        · have hcount : List.count c (cs ++ ["rm -Rf " ++ f]) = List.count c cs := by
            rw [List.count_append]
            have : List.count c ["rm -Rf " ++ f] = 0 :=
              List.count_eq_zero.mpr (by simpa using fun hcc => hc hcc.symm)
            rw [this]
            exact Nat.add_zero _
          rw [hcount]
    · rw [if_neg hs]; exact ih cs c

/-- C5 (amended): the dedup guard protects only the two sweep stages: in
any completed run, a command's multiplicity in the returned list never
exceeds `max` of its multiplicity in the pre-sweep stage plan and one —
the sweeps never enqueue an already-present command, while the mount and
volume-group stages append unconditionally (and can genuinely duplicate,
see the counterexample). -/
theorem c5_sweep_dedup (w : World) (snap : Snapshot) (execute : Bool)
    (pat globPat : String → Bool) (w' : World) (cs : List String)
    (h : force_clean w snap execute pat globPat = .ok (w', cs)) (c : String) :
    List.count c cs ≤ max (List.count c (stagePlanPre snap pat)) 1 := by
  obtain ⟨L1, L2, hshape⟩ := force_clean_cs_shape w snap execute pat globPat h
  rw [hshape]
  refine le_trans (sweepCmds_count_le (fun _ => true) L2 _ c) ?_
  have h1 := sweepCmds_count_le pat L1 (stagePlanPre snap pat) c
  have : max (List.count c (sweepCmds pat L1 (stagePlanPre snap pat))) 1
      ≤ max (max (List.count c (stagePlanPre snap pat)) 1) 1 := by
    exact max_le_max h1 (le_refl 1)
  refine le_trans this ?_
  rw [max_assoc, max_self]

/-- C5 witness: the amended bound evaluated on the duplicate-producing
snapshot: the duplicated `rm -Rf` indeed has multiplicity two already in
the pre-sweep plan, and the sweep stages do not increase it. -/
theorem c5_sweep_dedup_witness :
    List.count "rm -Rf /tmp/image_mounter_1"
        (planOf (force_clean w0c snap5c false patNone patNone))
      ≤ max (List.count "rm -Rf /tmp/image_mounter_1" (stagePlanPre snap5c patNone)) 1 :=
  c5_sweep_dedup w0c snap5c false patNone patNone
    (worldOf (force_clean w0c snap5c false patNone patNone))
    (planOf (force_clean w0c snap5c false patNone patNone)) rfl "rm -Rf /tmp/image_mounter_1"

/-! ## C3 (amended): command failures are caught, removal errors are not -/

/-- If the appended unmount command fails, `clean_unmount` catches the
failure and returns `False` at once (the bare `except` of lines 31-34),
provided the branches that skip the command (avfs marker, symlink) are not
taken. -/
theorem clean_unmount_cmdFail (w : World) (cmd : List String) (mp : String)
    (tries : Nat) (rmdir : Bool)
    (hav : pathExists w (mp ++ "/avfs") = false)
    (hlink : mp ∉ w.symlinks)
    (hfail : w.cmdFails (clean_unmount_cmd cmd mp) = true) :
    clean_unmount w cmd mp tries rmdir
      = .ok ({ w with log := w.log ++ [clean_unmount_cmd cmd mp] }, false) := by
  unfold clean_unmount
  rw [if_neg (by rw [hav]; exact Bool.false_ne_true)]
  rw [if_neg (by simp [isLink, hlink])]
  unfold checkCall
  rw [if_pos hfail]

/-- A mount stage in which every invoked command fails runs every matched
entry's `clean_unmount` to the caught-failure return, raising nothing and
touching nothing but the command log. -/
theorem mountStage_allFail_ok (cond : MountEntry → Bool) (mk : String → List String)
    (baseCmd : List String) (rmdirFlag : Bool) :
    ∀ (mounts : List MountEntry) (w : World) (cs : List String),
    (∀ c, w.cmdFails c = true) →
    (∀ e ∈ mounts, pathExists w (e.mountpoint ++ "/avfs") = false) →
    (∀ e ∈ mounts, e.mountpoint ∉ w.symlinks) →
    ∃ w'', mountStage true cond mk baseCmd rmdirFlag mounts w cs
      = .ok (w'', cs ++ stageCmds cond mk mounts)
      ∧ w''.files = w.files ∧ w''.dirs = w.dirs ∧ w''.symlinks = w.symlinks
      ∧ w''.cmdFails = w.cmdFails := by
  intro mounts
  induction mounts with
  | nil =>
    intro w cs _ _ _
    exact ⟨w, by simp [mountStage, stageCmds], rfl, rfl, rfl, rfl⟩
  | cons e rest ih =>
    intro w cs hfail hav hlink
    cases hc : cond e with
    | false =>
      simp only [mountStage, hc, Bool.false_eq_true, if_false]
      obtain ⟨w'', hw, hf, hd, hs, hcf⟩ := ih w cs hfail
        (fun e' he' => hav e' (List.mem_cons_of_mem _ he'))
        (fun e' he' => hlink e' (List.mem_cons_of_mem _ he'))
      exact ⟨w'', by rw [hw, stageCmds_cons_neg hc], hf, hd, hs, hcf⟩
    | true =>
      simp only [mountStage, hc, if_true]
      rw [clean_unmount_cmdFail w baseCmd e.mountpoint 5 rmdirFlag
        (hav e (List.mem_cons_self e rest)) (hlink e (List.mem_cons_self e rest))
        (hfail _)]
      obtain ⟨w'', hw, hf, hd, hs, hcf⟩ :=
        ih { w with log := w.log ++ [clean_unmount_cmd baseCmd e.mountpoint] }
          (cs ++ mk e.mountpoint) hfail
          (fun e' he' => hav e' (List.mem_cons_of_mem _ he'))
          (fun e' he' => hlink e' (List.mem_cons_of_mem _ he'))
      refine ⟨w'', ?_, hf, hd, hs, hcf⟩
      show mountStage true cond mk baseCmd rmdirFlag rest
        { w with log := w.log ++ [clean_unmount_cmd baseCmd e.mountpoint] }
        (cs ++ mk e.mountpoint) = _
      rw [hw, stageCmds_cons_pos hc, List.append_assoc]

/-- C3 (amended): the failure of every invoked external command (unmount,
fusermount, lvchange, losetup) and of the sweeps' directory removals is
caught and ignored: when every command fails, `force_clean` in execute
mode still runs to completion and returns the full dry-run command list.
(The uncaught case refuted by the counterexample is different: an OS error
in `clean_unmount`'s removal phase after a *successful* unmount, e.g. a
non-empty or vanished mountpoint directory, propagates.) Side conditions:
no matched mountpoint is a symlink or carries an avfs marker — in those
branches the unmount command is skipped and the removal phase, which can
raise, is reached — plus the C4 glob side conditions. -/
theorem c3_command_failures_ignored (w : World) (snap : Snapshot)
    (pat globPat : String → Bool)
    (hnd : (worldEntries w).Nodup)
    (havG : ∀ e ∈ snap.mounts, globPat (e.mountpoint ++ "/avfs") = false)
    (havI : ∀ e ∈ snap.mounts, imGlobMatch (e.mountpoint ++ "/avfs") = false)
    (hfail : ∀ c, w.cmdFails c = true)
    (hnoav : ∀ e ∈ snap.mounts, pathExists w (e.mountpoint ++ "/avfs") = false)
    (hnolink : ∀ e ∈ snap.mounts, e.mountpoint ∉ w.symlinks) :
    ∃ w', force_clean w snap true pat globPat
      = .ok (w', planOf (force_clean w snap false pat globPat)) := by
  have hok : ∃ w' cs, force_clean w snap true pat globPat = .ok (w', cs) := by
    simp only [force_clean]
    obtain ⟨wa, ha, haf, had, has, hac⟩ :=
      mountStage_allFail_ok (bindCond pat) bindMk ["umount"] false snap.mounts
        { w with lvmSuppress := true } [] hfail hnoav hnolink
    rw [ha]
    dsimp only
    obtain ⟨wb, hb, hbf, hbd, hbs, hbc⟩ :=
      mountStage_allFail_ok (mainCond pat) mainMk ["umount"] true snap.mounts
        wa _ (fun c => by rw [hac]; exact hfail c)
        (fun e he => by rw [pathExists, haf, had, has]; exact hnoav e he)
        (fun e he => by rw [has]; exact hnolink e he)
    rw [hb]
    dsimp only
    have hfw : wb.files = w.files := by rw [hbf, haf]
    have hdw : wb.dirs = w.dirs := by rw [hbd, had]
    have hsw : wb.symlinks = w.symlinks := by rw [hbs, has]
    have hcw : wb.cmdFails = w.cmdFails := by rw [hbc, hac]
    have t3 := vgStage_touch true snap.loopbacks snap.vgPairs wb
      ([] ++ stageCmds (bindCond pat) bindMk snap.mounts
        ++ stageCmds (mainCond pat) mainMk snap.mounts)
    have hcfiles : (vgStage true snap.loopbacks snap.vgPairs wb
        ([] ++ stageCmds (bindCond pat) bindMk snap.mounts
          ++ stageCmds (mainCond pat) mainMk snap.mounts)).1.files.Sublist wb.files :=
      t3.2.1.1
    have hcdirs : (vgStage true snap.loopbacks snap.vgPairs wb
        ([] ++ stageCmds (bindCond pat) bindMk snap.mounts
          ++ stageCmds (mainCond pat) mainMk snap.mounts)).1.dirs.Sublist wb.dirs :=
      t3.1.1
    have hcsym : (vgStage true snap.loopbacks snap.vgPairs wb
        ([] ++ stageCmds (bindCond pat) bindMk snap.mounts
          ++ stageCmds (mainCond pat) mainMk snap.mounts)).1.symlinks.Sublist wb.symlinks :=
      t3.2.2.1.1
    have hccmd : (vgStage true snap.loopbacks snap.vgPairs wb
        ([] ++ stageCmds (bindCond pat) bindMk snap.mounts
          ++ stageCmds (mainCond pat) mainMk snap.mounts)).1.cmdFails = wb.cmdFails :=
      t3.2.2.2.2.1.2
    obtain ⟨wd, hdq, hdf, hdd, hds, hdc⟩ :=
      mountStage_allFail_ok fuseCond fuseMk ["fusermount", "-u"] true snap.mounts
        (vgStage true snap.loopbacks snap.vgPairs wb
          ([] ++ stageCmds (bindCond pat) bindMk snap.mounts
            ++ stageCmds (mainCond pat) mainMk snap.mounts)).1 _
        (fun c => by rw [hccmd, hcw]; exact hfail c)
        (fun e he => by
          have h0 := hnoav e he
          simp only [pathExists, Bool.or_eq_false_iff, decide_eq_false_iff_not] at h0 ⊢
          refine ⟨⟨?_, ?_⟩, ?_⟩
          · exact fun hmem => h0.1.1 (hfw ▸ hcfiles.mem hmem)
          · exact fun hmem => h0.1.2 (hdw ▸ hcdirs.mem hmem)
          · exact fun hmem => h0.2 (hsw ▸ hcsym.mem hmem))
        (fun e he => fun hmem => hnolink e he (hsw ▸ hcsym.mem hmem))
    rw [hdq]
    dsimp only
    exact ⟨_, _, rfl⟩
  obtain ⟨w', cs, hok⟩ := hok
  have heq := force_clean_exec_cs w snap pat globPat hnd havG havI hok
  refine ⟨w', ?_⟩
  rw [hok, heq, force_clean_dry]
  rfl

/-- The C3 witness world: one matched mounted directory, every external
command failing. -/
def wAF : World :=
  { w0c with dirs := ["/tmp/im_1_a"], mountedPaths := ["/tmp/im_1_a"], cmdFails := fun _ => true }

/-- C3 (amended) witness: with every command failing on the concrete
snapshot, execution still completes with the dry-run plan. -/
theorem c3_command_failures_ignored_witness :
    ∃ w', force_clean wAF snap3c true pat3c patNone
      = .ok (w', planOf (force_clean wAF snap3c false pat3c patNone)) :=
  c3_command_failures_ignored wAF snap3c pat3c patNone (by decide) (by decide) (by decide)
    (fun _ => rfl) (by decide) (by decide)

/-! ## C7 (amended): the fixed glob is always swept, but non-recursively -/

/-! The mount table shrinks monotonically: no modelled operation ever adds
a mountpoint, so a path that starts out unmounted stays unmounted through
every stage. These lemmas carry that fact to the final sweep, where
`os.rmdir` needs it to succeed. -/

theorem osRemove_mounted (w : World) (p : String) :
    (exWorld (osRemove w p)).mountedPaths = w.mountedPaths := by
  rcases osRemove_world w p with h | h | h <;> rw [h]

theorem osRmdir_mounted (w : World) (p : String) :
    (exWorld (osRmdir w p)).mountedPaths = w.mountedPaths := by
  rcases osRmdir_world w p with h | h <;> rw [h]

theorem rmdirCaught_mounted (w : World) (p : String) :
    (rmdirCaught w p).mountedPaths = w.mountedPaths := by
  rw [rmdirCaught_eq]; exact osRmdir_mounted w p

theorem checkCall_mounted (w : World) (c : List String) :
    (exWorld (checkCall w c)).mountedPaths.Sublist w.mountedPaths := by
  rcases checkCall_world w c with h | ⟨mp, h⟩ <;> rw [h]
  exact List.erase_sublist mp w.mountedPaths

theorem unmountPoll_mounted (w : World) (mp : String) (n : Nat) :
    (exWorld (unmountPoll w mp n)).mountedPaths = w.mountedPaths := by
  induction n with
  | zero => rfl
  | succ n ih =>
    show (exWorld (if isMount w mp then unmountPoll w mp n
          else if isLink w mp then osRemove w mp else osRmdir w mp)).mountedPaths
        = w.mountedPaths
    by_cases h1 : isMount w mp = true
    · rw [if_pos h1]; exact ih
    · rw [if_neg h1]
      by_cases h2 : isLink w mp = true
      · rw [if_pos h2]; exact osRemove_mounted w mp
      · rw [if_neg h2]; exact osRmdir_mounted w mp

theorem finishUnmount_mounted (w : World) (mp : String) (tries : Nat) (rmdir : Bool) :
    (cuWorld (finishUnmount w mp tries rmdir)).mountedPaths = w.mountedPaths := by
  cases rmdir
  · rw [cuWorld_finishUnmount_false]
  · rw [cuWorld_finishUnmount_true]; exact unmountPoll_mounted w mp tries

theorem clean_unmount_mounted (w : World) (cmd : List String) (mp : String)
    (tries : Nat) (rmdir : Bool) :
    (cuWorld (clean_unmount w cmd mp tries rmdir)).mountedPaths.Sublist w.mountedPaths := by
  unfold clean_unmount
  by_cases h1 : pathExists w (mp ++ "/avfs") = true
  · rw [if_pos h1]
    cases hr : osRemove w (mp ++ "/avfs") with
    | error w' =>
      have ht := osRemove_mounted w (mp ++ "/avfs")
      rw [hr, exWorld_error] at ht
      show w'.mountedPaths.Sublist w.mountedPaths
      rw [ht]
    | ok w1 =>
      have ht := osRemove_mounted w (mp ++ "/avfs")
      rw [hr, exWorld_ok] at ht
      rw [finishUnmount_mounted, ht]
  · rw [if_neg h1]
    by_cases h2 : isLink w mp = true
    · rw [if_pos h2]
      rw [finishUnmount_mounted]
    · rw [if_neg h2]
      cases hr : checkCall w (clean_unmount_cmd cmd mp) with
      | error w' =>
        have ht := checkCall_mounted w (clean_unmount_cmd cmd mp)
        rw [hr, exWorld_error] at ht
        exact ht
      | ok w1 =>
        have ht := checkCall_mounted w (clean_unmount_cmd cmd mp)
        rw [hr, exWorld_ok] at ht
        rw [finishUnmount_mounted]
        exact ht

theorem mountStage_mounted (execute : Bool) (cond : MountEntry → Bool)
    (mk : String → List String) (baseCmd : List String) (rmdirFlag : Bool) :
    ∀ (mounts : List MountEntry) (w : World) (cs : List String),
    (worldOf (mountStage execute cond mk baseCmd rmdirFlag mounts w cs)).mountedPaths.Sublist
      w.mountedPaths := by
  intro mounts
  induction mounts with
  | nil => intro w cs; exact List.Sublist.refl _
  | cons e rest ih =>
    intro w cs
    cases hc : cond e with
    | false =>
      simp only [mountStage, hc, Bool.false_eq_true, if_false]
      exact ih w cs
    | true =>
      simp only [mountStage, hc, if_true]
      cases execute with
      | false =>
        simp only [Bool.false_eq_true, if_false]
        exact ih w (cs ++ mk e.mountpoint)
      | true =>
        simp only [if_true]
        cases hr : clean_unmount w baseCmd e.mountpoint 5 rmdirFlag with
        | error w' =>
          have ht := clean_unmount_mounted w baseCmd e.mountpoint 5 rmdirFlag
          rw [hr, cuWorld_error] at ht
          exact ht
        | ok pr =>
          obtain ⟨w1, b⟩ := pr
          have ht := clean_unmount_mounted w baseCmd e.mountpoint 5 rmdirFlag
          rw [hr, cuWorld_ok] at ht
          exact List.Sublist.trans (ih w1 (cs ++ mk e.mountpoint)) ht

theorem vgRunCaught_mounted (w : World) (vg pv : String) :
    (vgRunCaught w vg pv).mountedPaths.Sublist w.mountedPaths := by
  rcases vgRunCaught_cases w vg pv with h | ⟨w1, h1, h⟩
  · rw [h]; exact checkCall_mounted w _
  · rw [h]
    have ht := checkCall_mounted w ["lvchange", "-a", "n", vg]
    rw [h1, exWorld_ok] at ht
    exact List.Sublist.trans (checkCall_mounted w1 _) ht

theorem vgStage_mounted (execute : Bool) (loopbacks : List (String × String)) :
    ∀ (pairs : List (String × String)) (w : World) (cs : List String),
    (vgStage execute loopbacks pairs w cs).1.mountedPaths.Sublist w.mountedPaths := by
  intro pairs
  induction pairs with
  | nil => intro w cs; exact List.Sublist.refl _
  | cons pr rest ih =>
    obtain ⟨pv, vg⟩ := pr
    intro w cs
    cases hl : dictLookup loopbacks pv with
    | none => simp only [vgStage, hl]; exact ih w cs
    | some bf =>
      by_cases hm : strContains bf "/image_mounter_" = true
      · simp only [vgStage, hl, hm, if_true]
        cases execute with
        | false =>
          simp only [Bool.false_eq_true, if_false]
          exact ih w _
        | true =>
          simp only [if_true]
          exact List.Sublist.trans (ih (vgRunCaught w vg pv) _) (vgRunCaught_mounted w vg pv)
      · simp only [vgStage, hl, hm, if_false]
        exact ih w cs

theorem sweepStage_mounted (execute : Bool) (sel : String → Bool) :
    ∀ (folders : List String) (w : World) (cs : List String),
    (sweepStage execute sel folders w cs).1.mountedPaths.Sublist w.mountedPaths := by
  intro folders
  induction folders with
  | nil => intro w cs; exact List.Sublist.refl _
  | cons f rest ih =>
    intro w cs
    simp only [sweepStage]
    by_cases hs : sel f = true
    · rw [if_pos hs]
      cases execute with
      | false =>
        simp only [Bool.false_eq_true, if_false]
        exact ih w _
      | true =>
        simp only [if_true]
        have hrest := ih (rmdirCaught w f)
          (if ("rm -Rf " ++ f) ∈ cs then cs else cs ++ ["rm -Rf " ++ f])
        rw [rmdirCaught_mounted] at hrest
        exact hrest
    · rw [if_neg hs]
      exact ih w cs

theorem hasChild_false_mono {w w' : World}
    (hsub : (worldEntries w').Sublist (worldEntries w)) {p : String}
    (h : hasChild w p = false) : hasChild w' p = false := by
  rw [hasChild, List.any_eq_false] at h ⊢
  exact fun q hq => h q (hsub.mem hq)

/-- A sweep stage in execute mode does remove a listed, selected, empty
directory that is not a live mountpoint (on a mountpoint the `os.rmdir`
raises `EBUSY`, the error is swallowed, and the directory survives). -/
theorem sweepStage_removes (sel : String → Bool) :
    ∀ (folders : List String) (w : World) (cs : List String) (f : String),
    f ∈ folders → sel f = true → w.dirs.Nodup → f ∈ w.dirs → hasChild w f = false →
    f ∉ w.mountedPaths →
    f ∉ (sweepStage true sel folders w cs).1.dirs := by
  intro folders
  induction folders with
  | nil => intro w cs f hf _ _ _ _ _; exact absurd hf (List.not_mem_nil f)
  | cons g rest ih =>
    intro w cs f hf hsel hnd hfd hch hnm
    simp only [sweepStage]
    by_cases hs : sel g = true
    · rw [if_pos hs]
      simp only [if_true]
      by_cases hgf : g = f
      · subst hgf
        have hrm : rmdirCaught w g = { w with dirs := w.dirs.erase g } := by
          unfold rmdirCaught osRmdir
          rw [if_pos (by simp [hfd, hch, hnm])]
        rw [hrm]
        have hnot : g ∉ (w.dirs.erase g) := fun hmem =>
          ((List.Nodup.mem_erase_iff hnd).mp hmem).1 rfl
        intro hmem
        exact hnot ((sweepStage_touch true sel rest
          { w with dirs := w.dirs.erase g } _).1.1.mem hmem)
      · have hfg : f ≠ g := fun hh => hgf hh.symm
        have hfr : f ∈ rest := List.mem_of_ne_of_mem hfg hf
        rcases rmdirCaught_world w g with hw | hw <;> rw [hw]
        · exact ih w _ f hfr hsel hnd hfd hch hnm
        · refine ih _ _ f hfr hsel (List.Nodup.erase g hnd)
            ((List.mem_erase_of_ne hfg).mpr hfd) ?_ hnm
          refine hasChild_false_mono ?_ hch
          exact List.Sublist.append
            (List.Sublist.append (List.erase_sublist g w.dirs) (List.Sublist.refl _))
            (List.Sublist.refl _)
    · rw [if_neg hs]
      have hfg : f ≠ g := fun hh => hs (hh ▸ hsel)
      exact ih w cs f (List.mem_of_ne_of_mem hfg hf) hsel hnd hfd hch hnm

/-- C7 (amended): every directory matching the fixed `/tmp/image_mounter_*`
glob gets a `rm -Rf` removal command enqueued regardless of the
caller-supplied pattern; but in execute mode the actual removal is the
non-recursive `os.rmdir`: the directory is removed when it is empty and not
a live mountpoint, while a non-empty directory (see the counterexample) or
one on which `rmdir` raises `EBUSY` is left in place with the error
swallowed. Side conditions as in C4. -/
theorem c7_image_mounter_glob_swept (w : World) (snap : Snapshot) (execute : Bool)
    (pat globPat : String → Bool)
    (hnd : (worldEntries w).Nodup)
    (havG : ∀ e ∈ snap.mounts, globPat (e.mountpoint ++ "/avfs") = false)
    (havI : ∀ e ∈ snap.mounts, imGlobMatch (e.mountpoint ++ "/avfs") = false)
    (w' : World) (cs : List String)
    (h : force_clean w snap execute pat globPat = .ok (w', cs))
    (d : String) (hd : d ∈ w.dirs) (hg : imGlobMatch d = true) :
    ("rm -Rf " ++ d) ∈ cs
    ∧ (execute = true → hasChild w d = false → d ∉ w.mountedPaths → d ∉ w'.dirs) := by
  have hdent : d ∈ worldEntries w :=
    List.mem_append.mpr (Or.inl (List.mem_append.mpr (Or.inl hd)))
  have hcsEq : cs = planDry w snap pat globPat := by
    cases execute with
    | false =>
      rw [force_clean_dry] at h
      simp only [Except.ok.injEq, Prod.mk.injEq] at h
      exact h.2.symm
    | true => exact force_clean_exec_cs w snap pat globPat hnd havG havI h
  constructor
  · rw [hcsEq]
    exact mem_sweepCmds_self (fun _ => true) _ _ d (List.mem_filter.mpr ⟨hdent, hg⟩) rfl
  · intro hex hch hm
    subst hex
    obtain ⟨w1, cs1, w2, cs2, w4, cs4, h1, h2, h4, hw', hcs⟩ :=
      force_clean_ok_chain w snap true pat globPat h
    have hmW5 : d ∉ (sweepStage true pat (globEval w4 globPat) w4 cs4).1.mountedPaths := by
      intro hmem5
      apply hm
      have s5 := sweepStage_mounted true pat (globEval w4 globPat) w4 cs4
      have s4 := mountStage_mounted true fuseCond fuseMk ["fusermount", "-u"] true snap.mounts
        (vgStage true snap.loopbacks snap.vgPairs w2 cs2).1
        (vgStage true snap.loopbacks snap.vgPairs w2 cs2).2
      rw [h4, worldOf_ok] at s4
      have s3 := vgStage_mounted true snap.loopbacks snap.vgPairs w2 cs2
      have s2 := mountStage_mounted true (mainCond pat) mainMk ["umount"] true snap.mounts w1 cs1
      rw [h2, worldOf_ok] at s2
      have s1 := mountStage_mounted true (bindCond pat) bindMk ["umount"] false snap.mounts
        { w with lvmSuppress := true } []
      rw [h1, worldOf_ok] at s1
      exact s1.mem (s2.mem (s3.mem (s4.mem (s5.mem hmem5))))
    have t1 := mountStage_noRm_touch true (bindCond pat) bindMk ["umount"] snap.mounts
      { w with lvmSuppress := true } []
    rw [h1, worldOf_ok] at t1
    have t2 := mountStage_touch true (mainCond pat) mainMk ["umount"] true snap.mounts w1 cs1
    rw [h2, worldOf_ok] at t2
    have t3 := vgStage_touch true snap.loopbacks snap.vgPairs w2 cs2
    have t4 := mountStage_touch true fuseCond fuseMk ["fusermount", "-u"] true snap.mounts
      (vgStage true snap.loopbacks snap.vgPairs w2 cs2).1
      (vgStage true snap.loopbacks snap.vgPairs w2 cs2).2
    rw [h4, worldOf_ok] at t4
    have t5 := sweepStage_touch true pat (globEval w4 globPat) w4 cs4
    have T7 := localTouch_comp t1 (localTouch_comp t2 (localTouch_comp t3
      (localTouch_comp t4 t5)))
    have hdirsNodup : w.dirs.Nodup := by
      refine List.Nodup.sublist ?_ hnd
      exact List.Sublist.trans (List.sublist_append_left w.dirs w.files)
        (List.sublist_append_left (w.dirs ++ w.files) w.symlinks)
    by_cases hmem : d ∈ (sweepStage true pat (globEval w4 globPat) w4 cs4).1.dirs
    · have hsubW5 : (worldEntries ((sweepStage true pat (globEval w4 globPat) w4 cs4).1)).Sublist
          (worldEntries w) := entries_sublist T7.1 T7.2.1 T7.2.2.1
      have hchW5 : hasChild (sweepStage true pat (globEval w4 globPat) w4 cs4).1 d = false :=
        hasChild_false_mono hsubW5 hch
      have hndW5 : (sweepStage true pat (globEval w4 globPat) w4 cs4).1.dirs.Nodup :=
        List.Nodup.sublist T7.1.1 hdirsNodup
      have hdentW5 : d ∈ worldEntries ((sweepStage true pat (globEval w4 globPat) w4 cs4).1) :=
        List.mem_append.mpr (Or.inl (List.mem_append.mpr (Or.inl hmem)))
      have hrem := sweepStage_removes (fun _ => true)
        (globEval (sweepStage true pat (globEval w4 globPat) w4 cs4).1 imGlobMatch)
        (sweepStage true pat (globEval w4 globPat) w4 cs4).1
        (sweepStage true pat (globEval w4 globPat) w4 cs4).2 d
        (List.mem_filter.mpr ⟨hdentW5, hg⟩) rfl hndW5 hmem hchW5 hmW5
      rw [hw']
      exact hrem
    · rw [hw']
      intro hmem7
      exact hmem ((sweepStage_touch true (fun _ => true)
        (globEval (sweepStage true pat (globEval w4 globPat) w4 cs4).1 imGlobMatch)
        (sweepStage true pat (globEval w4 globPat) w4 cs4).1
        (sweepStage true pat (globEval w4 globPat) w4 cs4).2).1.1.mem hmem7)

/-- The C7 witness world: an empty `/tmp/image_mounter_*` directory. -/
def w7w : World := { w0c with dirs := ["/tmp/image_mounter_2"] }

/-- C7 (amended) witness: the empty, unmounted directory gets its removal
command enqueued (with a pattern matching nothing) and is gone after
execution. -/
theorem c7_image_mounter_glob_swept_witness :
    ("rm -Rf " ++ "/tmp/image_mounter_2")
        ∈ planOf (force_clean w7w snapEmpty true patNone patNone)
    ∧ "/tmp/image_mounter_2" ∉ (worldOf (force_clean w7w snapEmpty true patNone patNone)).dirs := by
  have hres := c7_image_mounter_glob_swept w7w snapEmpty true patNone patNone
    (by decide) (by decide) (by decide)
    (worldOf (force_clean w7w snapEmpty true patNone patNone))
    (planOf (force_clean w7w snapEmpty true patNone patNone)) rfl
    "/tmp/image_mounter_2" (by decide) (by decide)
  exact ⟨hres.1, hres.2 rfl (by decide) (by decide)⟩

/-! ## C1: bind mounts come first -/

theorem umount_ne_rm (a b : String) : "umount " ++ a ≠ "rm -Rf " ++ b :=
  @strPrefix_ne "umount " "rm -Rf " 0 (by decide) (by decide) (by decide) a b

theorem umount_ne_lvchange (a b : String) : "umount " ++ a ≠ "lvchange -a n " ++ b :=
  @strPrefix_ne "umount " "lvchange -a n " 0 (by decide) (by decide) (by decide) a b

theorem umount_ne_losetup (a b : String) : "umount " ++ a ≠ "losetup -d " ++ b :=
  @strPrefix_ne "umount " "losetup -d " 0 (by decide) (by decide) (by decide) a b

theorem umount_ne_fusermount (a b : String) : "umount " ++ a ≠ "fusermount -u " ++ b :=
  @strPrefix_ne "umount " "fusermount -u " 0 (by decide) (by decide) (by decide) a b

theorem mem_stageCmds {cond : MountEntry → Bool} {mk : String → List String}
    {mounts : List MountEntry} {c : String} (hc : c ∈ stageCmds cond mk mounts) :
    ∃ e, e ∈ mounts ∧ cond e = true ∧ c ∈ mk e.mountpoint := by
  simp only [stageCmds, List.mem_flatMap, List.mem_filter] at hc
  obtain ⟨e, ⟨he, hce⟩, hcm⟩ := hc
  exact ⟨e, he, hce, hcm⟩

theorem mem_vgCmds {loopbacks : List (String × String)} :
    ∀ {pairs : List (String × String)} {c : String}, c ∈ vgCmds loopbacks pairs →
    ∃ pv vg bf, (pv, vg) ∈ pairs ∧ dictLookup loopbacks pv = some bf
      ∧ strContains bf "/image_mounter_" = true
      ∧ (c = "lvchange -a n " ++ vg ∨ c = "losetup -d " ++ pv) := by
  intro pairs
  induction pairs with
  | nil => intro c hc; exact absurd hc (List.not_mem_nil c)
  | cons pr rest ih =>
    obtain ⟨pv, vg⟩ := pr
    intro c hc
    simp only [vgCmds, List.mem_append] at hc
    rcases hc with hc | hc
    · cases hl : dictLookup loopbacks pv with
      | none =>
        rw [hl] at hc
        dsimp only at hc
        exact absurd hc (List.not_mem_nil c)
      | some bf =>
        rw [hl] at hc
        dsimp only at hc
        by_cases hm : strContains bf "/image_mounter_" = true
        · rw [if_pos hm] at hc
          simp only [List.mem_cons, List.mem_singleton, List.not_mem_nil, or_false] at hc
          exact ⟨pv, vg, bf, List.mem_cons_self _ _, hl, hm, hc⟩
        · rw [if_neg hm] at hc
          exact absurd hc (List.not_mem_nil c)
    · obtain ⟨pv', vg', bf', hpr, hl, hm, hsh⟩ := ih hc
      exact ⟨pv', vg', bf', List.mem_cons_of_mem _ hpr, hl, hm, hsh⟩

/-- A bind-stage plan entry: an unmount of a bind-mounted, pattern-matched
mountpoint. -/
def IsBindEntry (snap : Snapshot) (pat : String → Bool) (c : String) : Prop :=
  ∃ e, e ∈ snap.mounts ∧ strContains e.opts "bind" = true ∧ pat e.mountpoint = true
    ∧ c = "umount " ++ e.mountpoint

/-- A non-bind unmount, volume-group deactivation or loopback detach
entry. -/
def IsLaterEntry (snap : Snapshot) (pat : String → Bool) (c : String) : Prop :=
  (∃ e, e ∈ snap.mounts ∧ strContains e.opts "bind" = false
     ∧ (strContains e.orig "/image_mounter_" = true ∨ pat e.mountpoint = true)
     ∧ c = "umount " ++ e.mountpoint)
  ∨ (∃ pv vg bf, (pv, vg) ∈ snap.vgPairs ∧ dictLookup snap.loopbacks pv = some bf
      ∧ strContains bf "/image_mounter_" = true
      ∧ (c = "lvchange -a n " ++ vg ∨ c = "losetup -d " ++ pv))

/-- Every bind-stage entry occurs strictly before every non-bind unmount,
volume-group deactivation and loopback detach in the list. -/
def PlanBindFirst (snap : Snapshot) (pat : String → Bool) (cs : List String) : Prop :=
  ∀ (i j : Nat) (hi : i < cs.length) (hj : j < cs.length),
    IsBindEntry snap pat (cs.get ⟨i, hi⟩) → IsLaterEntry snap pat (cs.get ⟨j, hj⟩) → i < j

/-- C1: in any completed run of `force_clean`, the unmount of every bind
mount whose mountpoint matches the caller-supplied pattern appears
strictly before every non-bind unmount, every `lvchange -a n` and every
`losetup -d` entry of the returned list. The hypothesis that mountpoints
are pairwise distinct is guaranteed by the source, which keys the mount
table by mountpoint in a dict. -/
theorem c1_bind_mounts_first (w : World) (snap : Snapshot) (execute : Bool)
    (pat globPat : String → Bool)
    (hnd : (snap.mounts.map MountEntry.mountpoint).Nodup)
    (w' : World) (cs : List String)
    (h : force_clean w snap execute pat globPat = .ok (w', cs)) :
    PlanBindFirst snap pat cs := by
  obtain ⟨L1, L2, hshape⟩ := force_clean_cs_shape w snap execute pat globPat h
  obtain ⟨e1, he1, hsh1⟩ := sweepCmds_extends pat L1 (stagePlanPre snap pat)
  obtain ⟨e2, he2, hsh2⟩ := sweepCmds_extends (fun _ => true) L2
    (sweepCmds pat L1 (stagePlanPre snap pat))
  have hcsBR : cs = stageCmds (bindCond pat) bindMk snap.mounts
      ++ (stageCmds (mainCond pat) mainMk snap.mounts
      ++ (vgCmds snap.loopbacks snap.vgPairs
      ++ (stageCmds fuseCond fuseMk snap.mounts ++ (e1 ++ e2)))) := by
    rw [hshape, he2, he1]
    simp [stagePlanPre, List.append_assoc]
  have hrest : ∀ c, c ∈ stageCmds (mainCond pat) mainMk snap.mounts
      ++ (vgCmds snap.loopbacks snap.vgPairs
      ++ (stageCmds fuseCond fuseMk snap.mounts ++ (e1 ++ e2))) →
      (∃ e, e ∈ snap.mounts ∧ mainCond pat e = true
        ∧ (c = "umount " ++ e.mountpoint ∨ c = "rm -Rf " ++ e.mountpoint))
      ∨ (∃ vg pv, c = "lvchange -a n " ++ vg ∨ c = "losetup -d " ++ pv)
      ∨ (∃ mp, c = "fusermount -u " ++ mp ∨ c = "rm -Rf " ++ mp) := by
    intro c hc
    simp only [List.mem_append] at hc
    rcases hc with hc | hc | hc | hc | hc
    · obtain ⟨e, he, hcond, hcm⟩ := mem_stageCmds hc
      simp only [mainMk, List.mem_cons, List.mem_singleton, List.not_mem_nil, or_false] at hcm
      exact Or.inl ⟨e, he, hcond, hcm⟩
    · obtain ⟨pv, vg, bf, _, _, _, hsh⟩ := mem_vgCmds hc
      exact Or.inr (Or.inl ⟨vg, pv, hsh⟩)
    · obtain ⟨e, he, hcond, hcm⟩ := mem_stageCmds hc
      simp only [fuseMk, List.mem_cons, List.mem_singleton, List.not_mem_nil, or_false] at hcm
      exact Or.inr (Or.inr ⟨e.mountpoint, hcm⟩)
    · obtain ⟨f, _, _, hcf⟩ := hsh1 c hc
      exact Or.inr (Or.inr ⟨f, Or.inr hcf⟩)
    · obtain ⟨f, _, _, hcf⟩ := hsh2 c hc
      exact Or.inr (Or.inr ⟨f, Or.inr hcf⟩)
  have hbindB : ∀ c, c ∈ stageCmds (bindCond pat) bindMk snap.mounts →
      IsBindEntry snap pat c := by
    intro c hc
    obtain ⟨e, he, hcond, hcm⟩ := mem_stageCmds hc
    simp only [bindMk, List.mem_singleton] at hcm
    simp only [bindCond, Bool.and_eq_true] at hcond
    exact ⟨e, he, hcond.1, hcond.2, hcm⟩
  have hbind_not_rest : ∀ c, IsBindEntry snap pat c →
      c ∈ stageCmds (mainCond pat) mainMk snap.mounts
        ++ (vgCmds snap.loopbacks snap.vgPairs
        ++ (stageCmds fuseCond fuseMk snap.mounts ++ (e1 ++ e2))) → False := by
    intro c hb hcR
    obtain ⟨e, he, hbind, _, hce⟩ := hb
    rcases hrest c hcR with ⟨e', he', hcond', hsh⟩ | ⟨vg, pv, hsh⟩ | ⟨mp, hsh⟩
    · rcases hsh with hsh | hsh
      · have hmp := strAppend_cancel_left (hce.symm.trans hsh)
        have hee : e = e' := List.inj_on_of_nodup_map hnd he he' hmp
        simp only [mainCond, Bool.and_eq_true] at hcond'
        rw [← hee, hbind] at hcond'
        simp at hcond'
      · exact umount_ne_rm _ _ (hce.symm.trans hsh)
    · rcases hsh with hsh | hsh
      · exact umount_ne_lvchange _ _ (hce.symm.trans hsh)
      · exact umount_ne_losetup _ _ (hce.symm.trans hsh)
    · rcases hsh with hsh | hsh
      · exact umount_ne_fusermount _ _ (hce.symm.trans hsh)
      · exact umount_ne_rm _ _ (hce.symm.trans hsh)
  have hlater_not_B : ∀ c, IsLaterEntry snap pat c →
      c ∈ stageCmds (bindCond pat) bindMk snap.mounts → False := by
    intro c hl hcB
    obtain ⟨e, he, hbind, _, hce⟩ := hbindB c hcB
    rcases hl with ⟨e', he', hnb, _, hce'⟩ | ⟨pv, vg, bf, _, _, _, hsh⟩
    · have hmp := strAppend_cancel_left (hce.symm.trans hce')
      have hee : e = e' := List.inj_on_of_nodup_map hnd he he' hmp
      rw [← hee, hbind] at hnb
      exact absurd hnb (by simp)
    · rcases hsh with hsh | hsh
      · exact umount_ne_lvchange _ _ (hce.symm.trans hsh)
      · exact umount_ne_losetup _ _ (hce.symm.trans hsh)
  subst hcsBR
  intro i j hi hj hbI hlJ
  have hjge : (stageCmds (bindCond pat) bindMk snap.mounts).length ≤ j := by
    by_contra hlt
    push_neg at hlt
    have hget : (stageCmds (bindCond pat) bindMk snap.mounts
        ++ (stageCmds (mainCond pat) mainMk snap.mounts
        ++ (vgCmds snap.loopbacks snap.vgPairs
        ++ (stageCmds fuseCond fuseMk snap.mounts ++ (e1 ++ e2))))).get ⟨j, hj⟩
        = (stageCmds (bindCond pat) bindMk snap.mounts).get ⟨j, hlt⟩ := by
      simp [List.get_eq_getElem, List.getElem_append_left hlt]
    rw [hget] at hlJ
    exact hlater_not_B _ hlJ (List.get_mem _ j hlt)
  have hilt : i < (stageCmds (bindCond pat) bindMk snap.mounts).length := by
    by_contra hge
    push_neg at hge
    have hi' : i - (stageCmds (bindCond pat) bindMk snap.mounts).length
        < (stageCmds (mainCond pat) mainMk snap.mounts
        ++ (vgCmds snap.loopbacks snap.vgPairs
        ++ (stageCmds fuseCond fuseMk snap.mounts ++ (e1 ++ e2)))).length := by
      have := hi
      rw [List.length_append] at this
      omega
    have hget : (stageCmds (bindCond pat) bindMk snap.mounts
        ++ (stageCmds (mainCond pat) mainMk snap.mounts
        ++ (vgCmds snap.loopbacks snap.vgPairs
        ++ (stageCmds fuseCond fuseMk snap.mounts ++ (e1 ++ e2))))).get ⟨i, hi⟩
        = (stageCmds (mainCond pat) mainMk snap.mounts
        ++ (vgCmds snap.loopbacks snap.vgPairs
        ++ (stageCmds fuseCond fuseMk snap.mounts ++ (e1 ++ e2)))).get
          ⟨i - (stageCmds (bindCond pat) bindMk snap.mounts).length, hi'⟩ := by
      simp [List.get_eq_getElem, List.getElem_append_right hge]
    rw [hget] at hbI
    exact hbind_not_rest _ hbI (List.get_mem _ _ hi')
  omega

/-- The C1 witness snapshot: a bind mount, a regular mount and a
volume-group chain. -/
def snapC1 : Snapshot :=
  { mounts :=
      [{ mountpoint := "/tmp/im_1_b", orig := "/tmp/im_1_a", fs := "none", opts := "rw,bind" },
       { mountpoint := "/tmp/im_1_a", orig := "/dev/loop0", fs := "ext4", opts := "rw" }],
    loopbacks := [("/dev/loop0", "/tmp/image_mounter_1/file.dd")],
    vgPairs := [("/dev/loop0", "vg1")] }

/-- A pattern matching paths under the default `/tmp/im_` prefix. -/
def patC1 : String → Bool := fun s => strStarts s "/tmp/im_"

/-- C1 witness: the plan for the concrete three-layer snapshot puts the
bind-mount unmount before the regular unmount and the chain teardown. -/
theorem c1_bind_mounts_first_witness :
    PlanBindFirst snapC1 patC1 (planOf (force_clean w0c snapC1 false patC1 patNone)) :=
  c1_bind_mounts_first w0c snapC1 false patC1 patNone (by decide)
    (worldOf (force_clean w0c snapC1 false patC1 patNone))
    (planOf (force_clean w0c snapC1 false patC1 patNone)) rfl

/-! ## C2: non-owned resources are never named or touched -/

/-- The ownership signals of a mount-table entry, per the claim: its
mountpoint matches the caller-supplied pattern, or its mount source
carries the `/image_mounter_` marker, or its mountpoint carries it. -/
def MountSignal (pat : String → Bool) (e : MountEntry) : Prop :=
  pat e.mountpoint = true ∨ strContains e.orig "/image_mounter_" = true
  ∨ strContains e.mountpoint "/image_mounter_" = true

/-- A command of the returned plan names an owned resource: an unmount or
removal of a signal-carrying mountpoint, the deactivation/detach of a
volume-group chain whose loopback backing file carries the marker, or a
sweep removal of an existing path matched by the caller glob together
with the pattern, or by the fixed `/tmp/image_mounter_*` glob. -/
def CmdJustified (w : World) (snap : Snapshot) (pat globPat : String → Bool)
    (c : String) : Prop :=
  (∃ e, e ∈ snap.mounts ∧ MountSignal pat e
    ∧ (c = "umount " ++ e.mountpoint ∨ c = "rm -Rf " ++ e.mountpoint
       ∨ c = "fusermount -u " ++ e.mountpoint))
  ∨ (∃ pv vg bf, (pv, vg) ∈ snap.vgPairs ∧ dictLookup snap.loopbacks pv = some bf
      ∧ strContains bf "/image_mounter_" = true
      ∧ (c = "lvchange -a n " ++ vg ∨ c = "losetup -d " ++ pv))
  ∨ (∃ d, d ∈ worldEntries w ∧ c = "rm -Rf " ++ d
      ∧ ((globPat d = true ∧ pat d = true) ∨ imGlobMatch d = true))

/-- An actually-invoked external command targets an owned resource. -/
def LogJustified (snap : Snapshot) (pat : String → Bool) (v : List String) : Prop :=
  (∃ e, e ∈ snap.mounts ∧ MountSignal pat e
    ∧ (v = ["umount", e.mountpoint] ∨ v = ["fusermount", "-u", e.mountpoint]))
  ∨ (∃ pv vg bf, (pv, vg) ∈ snap.vgPairs ∧ dictLookup snap.loopbacks pv = some bf
      ∧ strContains bf "/image_mounter_" = true
      ∧ (v = ["lvchange", "-a", "n", vg] ∨ v = ["losetup", "-d", pv]))

/-- A deleted path is an owned mountpoint, the avfs marker entry directly
inside an owned mountpoint, or an existing path matched by a sweep glob. -/
def RemovalJustified (w : World) (snap : Snapshot) (pat globPat : String → Bool)
    (p : String) : Prop :=
  (∃ e, e ∈ snap.mounts ∧ MountSignal pat e
    ∧ (p = e.mountpoint ∨ p = e.mountpoint ++ "/avfs"))
  ∨ (p ∈ worldEntries w ∧ ((globPat p = true ∧ pat p = true) ∨ imGlobMatch p = true))

theorem bindCond_signal {pat : String → Bool} {e : MountEntry}
    (h : bindCond pat e = true) : MountSignal pat e := by
  simp only [bindCond, Bool.and_eq_true] at h
  exact Or.inl h.2

theorem mainCond_signal {pat : String → Bool} {e : MountEntry}
    (h : mainCond pat e = true) : MountSignal pat e := by
  simp only [mainCond, Bool.and_eq_true, Bool.or_eq_true] at h
  rcases h.2 with h2 | h2
  · exact Or.inr (Or.inl h2)
  · exact Or.inl h2

theorem fuseCond_signal {pat : String → Bool} {e : MountEntry}
    (h : fuseCond e = true) : MountSignal pat e :=
  Or.inr (Or.inr h)

/-- C2: in any completed run (dry or execute), every entry of the returned
command list names an owned resource, every actually-invoked external
command targets an owned resource, and every path deleted from the
filesystem is an owned mountpoint, the avfs marker entry inside one, or a
glob-matched existing path. A resource carrying none of the ownership
signals never appears and is never operated on. -/
theorem c2_non_owned_untouched (w : World) (snap : Snapshot) (execute : Bool)
    (pat globPat : String → Bool) (w' : World) (cs : List String)
    (h : force_clean w snap execute pat globPat = .ok (w', cs)) :
    (∀ c ∈ cs, CmdJustified w snap pat globPat c)
    ∧ (∀ v ∈ w'.log, v ∈ w.log ∨ LogJustified snap pat v)
    ∧ (∀ p, p ∈ worldEntries w → p ∉ worldEntries w' → RemovalJustified w snap pat globPat p) := by
  obtain ⟨w1, cs1, w2, cs2, w4, cs4, h1, h2, h4, hw', hcs⟩ :=
    force_clean_ok_chain w snap execute pat globPat h
  have hcs1 := mountStage_ok_cs execute (bindCond pat) bindMk ["umount"] false snap.mounts
    _ _ _ _ h1
  have hcs2 := mountStage_ok_cs execute (mainCond pat) mainMk ["umount"] true snap.mounts
    _ _ _ _ h2
  have hcs3 := vgStage_cs execute snap.loopbacks snap.vgPairs w2 cs2
  have hcs4 := mountStage_ok_cs execute fuseCond fuseMk ["fusermount", "-u"] true snap.mounts
    _ _ _ _ h4
  have hcs4' : cs4 = stagePlanPre snap pat := by
    rw [hcs4, hcs3, hcs2, hcs1]
    simp [stagePlanPre, List.append_assoc]
  have t1 := mountStage_noRm_touch execute (bindCond pat) bindMk ["umount"] snap.mounts
    { w with lvmSuppress := true } []
  rw [h1, worldOf_ok] at t1
  have t2 := mountStage_touch execute (mainCond pat) mainMk ["umount"] true snap.mounts w1 cs1
  rw [h2, worldOf_ok] at t2
  have t3 := vgStage_touch execute snap.loopbacks snap.vgPairs w2 cs2
  have t4 := mountStage_touch execute fuseCond fuseMk ["fusermount", "-u"] true snap.mounts
    (vgStage execute snap.loopbacks snap.vgPairs w2 cs2).1
    (vgStage execute snap.loopbacks snap.vgPairs w2 cs2).2
  rw [h4, worldOf_ok] at t4
  have T4 := localTouch_comp t1 (localTouch_comp t2 (localTouch_comp t3 t4))
  have t5 := sweepStage_touch execute pat (globEval w4 globPat) w4 cs4
  have T5 := localTouch_comp T4 t5
  have t6 := sweepStage_touch execute (fun _ => true)
    (globEval (sweepStage execute pat (globEval w4 globPat) w4 cs4).1 imGlobMatch)
    (sweepStage execute pat (globEval w4 globPat) w4 cs4).1
    (sweepStage execute pat (globEval w4 globPat) w4 cs4).2
  have TF := localTouch_comp T5 t6
  rw [← hw'] at TF
  have hsub4 : (worldEntries w4).Sublist (worldEntries w) :=
    entries_sublist T4.1 T4.2.1 T4.2.2.1
  have hsub5 : (worldEntries (sweepStage execute pat (globEval w4 globPat) w4 cs4).1).Sublist
      (worldEntries w) := entries_sublist T5.1 T5.2.1 T5.2.2.1
  refine ⟨?_, ?_, ?_⟩
  · -- part 1: plan entries
    intro c hc
    rw [hcs, sweepStage_cs, sweepStage_cs] at hc
    obtain ⟨e1, he1, hsh1⟩ := sweepCmds_extends pat (globEval w4 globPat) cs4
    obtain ⟨e2, he2, hsh2⟩ := sweepCmds_extends (fun _ => true)
      (globEval (sweepStage execute pat (globEval w4 globPat) w4 cs4).1 imGlobMatch)
      (sweepCmds pat (globEval w4 globPat) cs4)
    rw [he2, he1] at hc
    simp only [List.mem_append] at hc
    rcases hc with (hc | hc) | hc
    · -- pre-sweep plan
      rw [hcs4'] at hc
      simp only [stagePlanPre, List.mem_append] at hc
      rcases hc with hc | hc | hc | hc
      · obtain ⟨e, he, hcond, hcm⟩ := mem_stageCmds hc
        simp only [bindMk, List.mem_singleton] at hcm
        exact Or.inl ⟨e, he, bindCond_signal hcond, Or.inl hcm⟩
      · obtain ⟨e, he, hcond, hcm⟩ := mem_stageCmds hc
        simp only [mainMk, List.mem_cons, List.mem_singleton, List.not_mem_nil, or_false] at hcm
        rcases hcm with hcm | hcm
        · exact Or.inl ⟨e, he, mainCond_signal hcond, Or.inl hcm⟩
        · exact Or.inl ⟨e, he, mainCond_signal hcond, Or.inr (Or.inl hcm)⟩
      · obtain ⟨pv, vg, bf, hpr, hl, hm, hsh⟩ := mem_vgCmds hc
        exact Or.inr (Or.inl ⟨pv, vg, bf, hpr, hl, hm, hsh⟩)
      · obtain ⟨e, he, hcond, hcm⟩ := mem_stageCmds hc
        simp only [fuseMk, List.mem_cons, List.mem_singleton, List.not_mem_nil, or_false] at hcm
        rcases hcm with hcm | hcm
        · exact Or.inl ⟨e, he, fuseCond_signal hcond, Or.inr (Or.inr hcm)⟩
        · exact Or.inl ⟨e, he, fuseCond_signal hcond, Or.inr (Or.inl hcm)⟩
    · -- first sweep additions
      obtain ⟨f, hf, hpf, hcf⟩ := hsh1 c hc
      have hfm := List.mem_filter.mp hf
      exact Or.inr (Or.inr ⟨f, hsub4.mem hfm.1, hcf, Or.inl ⟨hfm.2, hpf⟩⟩)
    · -- second sweep additions
      obtain ⟨f, hf, _, hcf⟩ := hsh2 c hc
      have hfm := List.mem_filter.mp hf
      exact Or.inr (Or.inr ⟨f, hsub5.mem hfm.1, hcf, Or.inr hfm.2⟩)
  · -- part 2: invoked commands
    intro v hv
    obtain ⟨L, hlog, hLs⟩ := TF.2.2.2.1
    rw [hlog] at hv
    rcases List.mem_append.mp hv with hv | hv
    · exact Or.inl hv
    · right
      have hvAll := hLs.mem hv
      simp only [List.append_nil, List.mem_append] at hvAll
      rcases hvAll with hv' | hv' | hv' | hv'
      · obtain ⟨e, he, hcond, hve⟩ := mem_stageLog hv'
        exact Or.inl ⟨e, he, bindCond_signal hcond, Or.inl hve⟩
      · obtain ⟨e, he, hcond, hve⟩ := mem_stageLog hv'
        exact Or.inl ⟨e, he, mainCond_signal hcond, Or.inl hve⟩
      · obtain ⟨pv, vg, bf, hpr, hl, hm, hsh⟩ := mem_vgLog hv'
        exact Or.inr ⟨pv, vg, bf, hpr, hl, hm, hsh⟩
      · obtain ⟨e, he, hcond, hve⟩ := mem_stageLog hv'
        exact Or.inl ⟨e, he, fuseCond_signal hcond, Or.inr hve⟩
  · -- part 3: deleted paths
    intro p hpw hpw'
    rcases entries_removed_cases TF.1 TF.2.1 TF.2.2.1 hpw hpw' with hD | hF | hF
    · simp only [List.mem_append, List.nil_append, List.not_mem_nil, false_or] at hD
      rcases hD with ((hD | hD) | hD) | hD
      · obtain ⟨e, he, hcond, hde⟩ := mem_stageDirs hD
        exact Or.inl ⟨e, he, mainCond_signal hcond, Or.inl hde⟩
      · obtain ⟨e, he, hcond, hde⟩ := mem_stageDirs hD
        exact Or.inl ⟨e, he, fuseCond_signal hcond, Or.inl hde⟩
      · have hfm := List.mem_filter.mp hD
        have hgm := List.mem_filter.mp hfm.1
        exact Or.inr ⟨hsub4.mem hgm.1, Or.inl ⟨hgm.2, hfm.2⟩⟩
      · have hfm := List.mem_filter.mp hD
        have hgm := List.mem_filter.mp hfm.1
        exact Or.inr ⟨hsub5.mem hgm.1, Or.inr hgm.2⟩
    all_goals {
      simp only [List.append_nil, List.nil_append, List.mem_append] at hF
      rcases hF with hF | hF | hF
      · obtain ⟨e, he, hcond, hde⟩ := mem_stageAvfsOnly hF
        exact Or.inl ⟨e, he, bindCond_signal hcond, Or.inr hde⟩
      · obtain ⟨e, he, hcond, hde⟩ := mem_stageAvfs hF
        rcases hde with hde | hde
        · exact Or.inl ⟨e, he, mainCond_signal hcond, Or.inr hde⟩
        · exact Or.inl ⟨e, he, mainCond_signal hcond, Or.inl hde⟩
      · obtain ⟨e, he, hcond, hde⟩ := mem_stageAvfs hF
        rcases hde with hde | hde
        · exact Or.inl ⟨e, he, fuseCond_signal hcond, Or.inr hde⟩
        · exact Or.inl ⟨e, he, fuseCond_signal hcond, Or.inl hde⟩ }

/-- C2 witness: on the volume-group chain snapshot, the enqueued
deactivation is justified by the marker in the loopback backing file. -/
theorem c2_non_owned_untouched_witness :
    CmdJustified w0c snap6c patNone patNone "lvchange -a n vg1" :=
  (c2_non_owned_untouched w0c snap6c false patNone patNone
    (worldOf (force_clean w0c snap6c false patNone patNone))
    (planOf (force_clean w0c snap6c false patNone patNone)) rfl).1
    "lvchange -a n vg1" (by decide)
